import Mathlib

/-!
Shallow embedding of the Claudito backend pieces under verification:
the Ralph Loop orchestration service
(`src/services/ralph-loop/ralph-loop-service.ts`), the settings router
(`src/routes/settings.ts`) and the Claude optimization service
(`src/services/claude-optimization-service.ts`).

Async TypeScript is modelled as sequential state passing: every service
method becomes a function from a `ServiceState` (the in-memory map of
active loops, the persisted repository contents and the emitted events)
to a new `ServiceState`.  External agent processes are abstracted by an
environment giving, per iteration, the worker summary or error and the
reviewer feedback or error.  A thrown JS error is modelled by the
`LoopOutcome.err` component of the result; the mutual recursion of the
phase functions is made total with a fuel parameter (`LoopOutcome.fuelOut`
marks exhaustion, which real runs never reach for sufficient fuel).
-/

namespace Claudito

/-- Association-list lookup, modelling `Map.get` / keyed JSON records. -/
def alGet {κ α : Type} [DecidableEq κ] : List (κ × α) → κ → Option α
  | [], _ => none
  | (k', v) :: rest, k => if k' = k then some v else alGet rest k

/-- Association-list insert/replace, modelling `Map.set` / record write. -/
def alSet {κ α : Type} [DecidableEq κ] : List (κ × α) → κ → α → List (κ × α)
  | [], k, v => [(k, v)]
  | (k', v') :: rest, k, v =>
      if k' = k then (k, v) :: rest else (k', v') :: alSet rest k v

/-- Association-list removal, modelling `Map.delete`. -/
def alDelete {κ α : Type} [DecidableEq κ] : List (κ × α) → κ → List (κ × α)
  | [], _ => []
  | (k', v') :: rest, k =>
      if k' = k then alDelete rest k else (k', v') :: alDelete rest k

/-- `RalphLoopStatus` from the ralph-loop types. -/
inductive RalphLoopStatus where
  | idle
  | worker_running
  | reviewer_running
  | paused
  | completed
  | failed
deriving DecidableEq, Repr

/-- The TS string value of a status, used in error messages. -/
def RalphLoopStatus.str : RalphLoopStatus → String
  | .idle => "idle"
  | .worker_running => "worker_running"
  | .reviewer_running => "reviewer_running"
  | .paused => "paused"
  | .completed => "completed"
  | .failed => "failed"

/-- `RalphLoopFinalStatus` from the ralph-loop types. -/
inductive RalphLoopFinalStatus where
  | approved
  | max_turns_reached
  | critical_failure
deriving DecidableEq, Repr

/-- The reviewer's decision enum. -/
inductive ReviewerDecision where
  | approve
  | reject
  | needs_changes
deriving DecidableEq, Repr

/-- Loop configuration; `maxTurns` is the iteration bound. -/
structure RalphLoopConfig where
  maxTurns : Nat
  workerModel : String
  reviewerModel : String
deriving DecidableEq, Repr

/-- A worker phase artifact.  The service only reads `workerOutput`
(`summary.workerOutput` is handed to the reviewer). -/
structure IterationSummary where
  workerOutput : String
deriving DecidableEq, Repr

/-- Reviewer feedback; the service only dispatches on `decision`. -/
structure ReviewerFeedback where
  decision : ReviewerDecision
  output : String
deriving DecidableEq, Repr

/-- Persisted loop state (`RalphLoopState`); repository timestamps
(`createdAt`/`updatedAt`) are not modelled. -/
structure RalphLoopState where
  taskId : String
  projectId : String
  config : RalphLoopConfig
  currentIteration : Nat
  status : RalphLoopStatus
  finalStatus : Option RalphLoopFinalStatus
  error : Option String
  summaries : List IterationSummary
  feedback : List ReviewerFeedback
deriving DecidableEq, Repr

/-- Which phase an active loop is in. -/
inductive LoopPhase where
  | worker
  | reviewer
deriving DecidableEq, Repr

/-- `ActiveLoopState`, the per-loop entry of the in-memory map.
`startTime` (wall clock) and the live agent handles are not modelled. -/
structure ActiveLoopState where
  taskId : String
  projectId : String
  shouldContinue : Bool
  currentPhase : Option LoopPhase
deriving DecidableEq, Repr

/-- Events emitted through the service's `EventEmitter`. -/
inductive LoopEvent where
  | status_change (projectId taskId : String) (status : RalphLoopStatus)
  | iteration_start (projectId taskId : String) (iteration : Nat)
  | worker_complete (projectId taskId : String) (summary : IterationSummary)
  | reviewer_complete (projectId taskId : String) (feedback : ReviewerFeedback)
  | loop_complete (projectId taskId : String) (finalStatus : RalphLoopFinalStatus)
  | loop_error (projectId taskId : String) (message : String)
deriving DecidableEq, Repr

/-- The whole observable state of the service: the in-memory
`activeLoops` map (keyed by the `projectId:taskId` string, as in the
source), the repository contents (keyed by the `(projectId, taskId)`
pair) and the events emitted so far, newest first. -/
structure ServiceState where
  activeLoops : List (String × ActiveLoopState)
  repo : List ((String × String) × RalphLoopState)
  events : List LoopEvent
deriving DecidableEq, Repr

/-- `getLoopKey`. -/
def getLoopKey (projectId taskId : String) : String :=
  projectId ++ ":" ++ taskId

/-- A record of fields passed to `repository.update` (each call site
supplies a subset of the fields). -/
structure LoopUpdate where
  status : Option RalphLoopStatus := none
  currentIteration : Option Nat := none
  finalStatus : Option RalphLoopFinalStatus := none
  error : Option String := none

/-- Merge an update into a persisted record: supplied fields replace the
stored ones, absent fields are kept. -/
def applyUpdate (st : RalphLoopState) (u : LoopUpdate) : RalphLoopState :=
  { st with
    status := u.status.getD st.status
    currentIteration := u.currentIteration.getD st.currentIteration
    finalStatus := match u.finalStatus with
      | some f => some f
      | none => st.finalStatus
    error := match u.error with
      | some e => some e
      | none => st.error }

/-- Modelled from the spec: `RalphLoopRepository.findById` — the
repository implementation (JSON persistence under
`src/repositories/ralph-loop`) is not among the sources, so it is
modelled as a keyed store, per the spec's "repository CRUD ... JSON
persistence". -/
def repoFind (s : ServiceState) (projectId taskId : String) :
    Option RalphLoopState :=
  alGet s.repo (projectId, taskId)

/-- Modelled from the spec: `RalphLoopRepository.update` merges the
supplied fields into the stored record; unknown ids are left alone. -/
def repoUpdate (s : ServiceState) (projectId taskId : String)
    (u : LoopUpdate) : ServiceState :=
  match alGet s.repo (projectId, taskId) with
  | none => s
  | some st =>
      { s with repo := alSet s.repo (projectId, taskId) (applyUpdate st u) }

/-- Modelled from the spec: `RalphLoopRepository.create` stores the
fresh record. -/
def repoCreate (s : ServiceState) (st : RalphLoopState) : ServiceState :=
  { s with repo := alSet s.repo (st.projectId, st.taskId) st }

/-- Modelled from the spec: `RalphLoopRepository.addSummary` appends an
iteration summary to the stored record. -/
def repoAddSummary (s : ServiceState) (projectId taskId : String)
    (summary : IterationSummary) : ServiceState :=
  match alGet s.repo (projectId, taskId) with
  | none => s
  | some st =>
      let st2 := { st with summaries := st.summaries ++ [summary] }
      { s with repo := alSet s.repo (projectId, taskId) st2 }

/-- Modelled from the spec: `RalphLoopRepository.addFeedback` appends
reviewer feedback to the stored record. -/
def repoAddFeedback (s : ServiceState) (projectId taskId : String)
    (fb : ReviewerFeedback) : ServiceState :=
  match alGet s.repo (projectId, taskId) with
  | none => s
  | some st =>
      let st2 := { st with feedback := st.feedback ++ [fb] }
      { s with repo := alSet s.repo (projectId, taskId) st2 }

/-- Record an emitted event (newest first). -/
def emitEvent (s : ServiceState) (e : LoopEvent) : ServiceState :=
  { s with events := e :: s.events }

/-- `updateStatus`: persist the new status and emit `status_change`. -/
def updateStatus (s : ServiceState) (projectId taskId : String)
    (status : RalphLoopStatus) : ServiceState :=
  emitEvent (repoUpdate s projectId taskId { status := some status })
    (.status_change projectId taskId status)

/-- Result marker of a phase call: normal return, an escaped JS error,
or fuel exhaustion of the model. -/
inductive LoopOutcome where
  | ok
  | err (msg : String)
  | fuelOut
deriving DecidableEq, Repr

/-- The environment abstracting everything outside the service: the
project path resolver and, per iteration number, the result of the
opaque worker and reviewer CLI agents (`Except.error` models a thrown
error / failed process). -/
structure LoopEnv where
  projectPath : String → Option String
  workerResult : Nat → Except String IterationSummary
  reviewerResult : Nat → String → Except String ReviewerFeedback

/-- `completeLoop`: drop the active entry, persist
`status: completed` with the final status, emit `loop_complete`. -/
def completeLoop (s : ServiceState) (projectId taskId : String)
    (finalStatus : RalphLoopFinalStatus) : ServiceState :=
  let s1 : ServiceState :=
    { s with activeLoops := alDelete s.activeLoops (getLoopKey projectId taskId) }
  let s2 := repoUpdate s1 projectId taskId
    { status := some .completed, finalStatus := some finalStatus }
  emitEvent s2 (.loop_complete projectId taskId finalStatus)

/-- `handleLoopError`: drop the active entry, persist
`status: failed`, `finalStatus: critical_failure` and the error
message, emit `loop_error`. -/
def handleLoopError (s : ServiceState) (projectId taskId : String)
    (msg : String) : ServiceState :=
  let s1 : ServiceState :=
    { s with activeLoops := alDelete s.activeLoops (getLoopKey projectId taskId) }
  let s2 := repoUpdate s1 projectId taskId
    { status := some .failed, finalStatus := some .critical_failure,
      error := some msg }
  emitEvent s2 (.loop_error projectId taskId msg)

/-- The `catch` block shared by both phase functions: an escaped error
is swallowed when the loop was stopped meanwhile
(`!activeState.shouldContinue`), otherwise rethrown. -/
def catchStopped (r : ServiceState × LoopOutcome) (key : String) :
    ServiceState × LoopOutcome :=
  match r with
  | (s, .err msg) =>
      match alGet s.activeLoops key with
      | some a => if a.shouldContinue then (s, .err msg) else (s, .ok)
      | none => (s, .err msg)
  | other => other

mutual

/-- `runNextIteration`: if the loop is still registered and allowed to
continue, either finish with `max_turns_reached` or bump the iteration
counter, emit `iteration_start` and run the worker phase. -/
def runNextIteration (env : LoopEnv) (fuel : Nat)
    (projectId taskId : String) (s : ServiceState) :
    ServiceState × LoopOutcome :=
  match fuel with
  | 0 => (s, .fuelOut)
  | fuel + 1 =>
    match alGet s.activeLoops (getLoopKey projectId taskId) with
    | none => (s, .ok)
    | some a =>
      if ¬ a.shouldContinue then (s, .ok)
      else
        match repoFind s projectId taskId with
        | none => (s, .ok)
        | some st =>
          if st.config.maxTurns ≤ st.currentIteration then
            (completeLoop s projectId taskId .max_turns_reached, .ok)
          else
            let next := st.currentIteration + 1
            let s1 := repoUpdate s projectId taskId
              { currentIteration := some next }
            let s2 := emitEvent s1 (.iteration_start projectId taskId next)
            runWorkerPhase env fuel projectId taskId next s2

/-- `runWorkerPhase`: mark the worker phase, run the worker agent; on
success persist the summary, emit `worker_complete` and hand the worker
output to the reviewer phase.  The whole try-block result passes through
the stop-aware `catch`. -/
def runWorkerPhase (env : LoopEnv) (fuel : Nat)
    (projectId taskId : String) (iteration : Nat) (s : ServiceState) :
    ServiceState × LoopOutcome :=
  match fuel with
  | 0 => (s, .fuelOut)
  | fuel + 1 =>
    let key := getLoopKey projectId taskId
    match alGet s.activeLoops key with
    | none => (s, .ok)
    | some a =>
      if ¬ a.shouldContinue then (s, .ok)
      else
        let s1 : ServiceState :=
          { s with activeLoops := alSet s.activeLoops key ({ a with currentPhase := some .worker }) }
        let s2 := updateStatus s1 projectId taskId .worker_running
        match repoFind s2 projectId taskId with
        | none => (s2, .ok)
        | some _ =>
          match env.projectPath projectId with
          | none => (s2, .err ("Project path not found for: " ++ projectId))
          | some _ =>
            catchStopped
              (match env.workerResult iteration with
               | .error msg => (s2, .err msg)
               | .ok summary =>
                 let s3 := repoAddSummary s2 projectId taskId summary
                 let s4 := emitEvent s3
                   (.worker_complete projectId taskId summary)
                 match alGet s4.activeLoops key with
                 | none => (s4, .ok)
                 | some a2 =>
                   if a2.shouldContinue then
                     runReviewerPhase env fuel projectId taskId iteration
                       summary.workerOutput s4
                   else (s4, .ok))
              key

/-- `runReviewerPhase`: mark the reviewer phase, run the reviewer agent
on the worker output; on success persist the feedback, emit
`reviewer_complete` and dispatch on the decision.  The whole try-block
result passes through the stop-aware `catch`. -/
def runReviewerPhase (env : LoopEnv) (fuel : Nat)
    (projectId taskId : String) (iteration : Nat) (workerOutput : String)
    (s : ServiceState) : ServiceState × LoopOutcome :=
  match fuel with
  | 0 => (s, .fuelOut)
  | fuel + 1 =>
    let key := getLoopKey projectId taskId
    match alGet s.activeLoops key with
    | none => (s, .ok)
    | some a =>
      if ¬ a.shouldContinue then (s, .ok)
      else
        let s1 : ServiceState :=
          { s with activeLoops := alSet s.activeLoops key ({ a with currentPhase := some .reviewer }) }
        let s2 := updateStatus s1 projectId taskId .reviewer_running
        match repoFind s2 projectId taskId with
        | none => (s2, .ok)
        | some _ =>
          match env.projectPath projectId with
          | none => (s2, .err ("Project path not found for: " ++ projectId))
          | some _ =>
            catchStopped
              (match env.reviewerResult iteration workerOutput with
               | .error msg => (s2, .err msg)
               | .ok fb =>
                 let s3 := repoAddFeedback s2 projectId taskId fb
                 let s4 := emitEvent s3
                   (.reviewer_complete projectId taskId fb)
                 match alGet s4.activeLoops key with
                 | none => (s4, .ok)
                 | some a2 =>
                   if a2.shouldContinue then
                     handleReviewerDecision env fuel projectId taskId fb s4
                   else (s4, .ok))
              key

/-- `handleReviewerDecision`: `approve` completes with `approved`,
`reject` completes with `critical_failure`, `needs_changes` starts the
next iteration. -/
def handleReviewerDecision (env : LoopEnv) (fuel : Nat)
    (projectId taskId : String) (fb : ReviewerFeedback)
    (s : ServiceState) : ServiceState × LoopOutcome :=
  match fuel with
  | 0 => (s, .fuelOut)
  | fuel + 1 =>
    match alGet s.activeLoops (getLoopKey projectId taskId) with
    | none => (s, .ok)
    | some a =>
      if ¬ a.shouldContinue then (s, .ok)
      else
        match fb.decision with
        | .approve => (completeLoop s projectId taskId .approved, .ok)
        | .reject => (completeLoop s projectId taskId .critical_failure, .ok)
        | .needs_changes => runNextIteration env fuel projectId taskId s

end

/-- The `.catch(error => handleLoopError(...))` wiring of `start` and
`resume`: run the iteration chain; an escaped error is routed to
`handleLoopError`. -/
def driveLoop (env : LoopEnv) (fuel : Nat) (projectId taskId : String)
    (s : ServiceState) : ServiceState :=
  match runNextIteration env fuel projectId taskId s with
  | (s1, .err msg) => handleLoopError s1 projectId taskId msg
  | (s1, _) => s1

/-- `start`: persist the fresh loop record, register the active entry
and run the first iteration (the generated task id is a parameter; the
async chain is run to completion). -/
def startLoop (env : LoopEnv) (fuel : Nat) (projectId : String)
    (config : RalphLoopConfig) (taskId : String) (s : ServiceState) :
    ServiceState :=
  let st : RalphLoopState :=
    { taskId := taskId, projectId := projectId, config := config,
      currentIteration := 0, status := .idle, finalStatus := none,
      error := none, summaries := [], feedback := [] }
  let s1 := repoCreate s st
  let a : ActiveLoopState :=
    { taskId := taskId, projectId := projectId, shouldContinue := true,
      currentPhase := none }
  let s2 : ServiceState :=
    { s1 with activeLoops := alSet s1.activeLoops (getLoopKey projectId taskId) a }
  driveLoop env fuel projectId taskId s2

/-- `stop`: if an active entry exists, clear `shouldContinue` and drop
it (stopping the live agents is outside the model); then
unconditionally persist `completed` / `critical_failure` /
"Loop stopped by user". -/
def stop (s : ServiceState) (projectId taskId : String) : ServiceState :=
  let key := getLoopKey projectId taskId
  let s1 : ServiceState :=
    match alGet s.activeLoops key with
    | some a =>
        let m := alSet s.activeLoops key ({ a with shouldContinue := false })
        { s with activeLoops := alDelete m key }
    | none => s
  repoUpdate s1 projectId taskId
    { status := some .completed, finalStatus := some .critical_failure,
      error := some "Loop stopped by user" }

/-- `pause`: clear `shouldContinue` on the active entry (which stays in
the map) and persist status `paused`. -/
def pause (s : ServiceState) (projectId taskId : String) : ServiceState :=
  let key := getLoopKey projectId taskId
  let s1 : ServiceState :=
    match alGet s.activeLoops key with
    | some a =>
        { s with activeLoops := alSet s.activeLoops key ({ a with shouldContinue := false }) }
    | none => s
  updateStatus s1 projectId taskId .paused

/-- `resume`: throws unless a persisted record exists with status
`paused`; otherwise re-registers the active entry, persists `idle` and
runs the next iteration chain. -/
def resume (env : LoopEnv) (fuel : Nat) (projectId taskId : String)
    (s : ServiceState) : Except String ServiceState :=
  match repoFind s projectId taskId with
  | none => .error ("Ralph Loop not found: " ++ taskId)
  | some st =>
    if st.status = .paused then
      let a : ActiveLoopState :=
        { taskId := taskId, projectId := projectId,
          shouldContinue := true, currentPhase := none }
      let s1 : ServiceState :=
        { s with activeLoops := alSet s.activeLoops (getLoopKey projectId taskId) a }
      let s2 := updateStatus s1 projectId taskId .idle
      .ok (driveLoop env fuel projectId taskId s2)
    else
      .error ("Cannot resume loop in status: " ++ st.status.str)

/-! ## Settings router (`src/routes/settings.ts`) -/

/-- A runtime JSON value, for request fields the router checks with
`typeof` / `Array.isArray` at runtime (JS numbers as rationals). -/
inductive JsVal where
  | num (x : Rat)
  | str (s : String)
  | bool (b : Bool)
  | null
  | arr (xs : List JsVal)
  | obj (fields : List (String × JsVal))

/-- JS falsiness of a value (`!v`); `NaN` is not modelled. -/
def jsFalsy : JsVal → Bool
  | .num x => x = 0
  | .str s => s = ""
  | .bool b => ¬ b
  | .null => true
  | .arr _ => false
  | .obj _ => false

/-- Property access `v.name`, `undefined` (`none`) off objects. -/
def objField (v : JsVal) (name : String) : Option JsVal :=
  match v with
  | .obj fields => alGet fields name
  | _ => none

/-- JS whitespace for `String.trim` (ASCII subset; Unicode spaces are
not modelled). -/
def isJsSpace (c : Char) : Bool :=
  c = ' ' ∨ c = '\t' ∨ c = '\n' ∨ c = '\r' ∨ c.toNat = 11 ∨ c.toNat = 12

/-- `String.prototype.trim` (over the modelled whitespace). -/
def jsTrim (s : String) : String :=
  String.mk (((s.data.dropWhile isJsSpace).reverse.dropWhile isJsSpace).reverse)

/-- ASCII letter, `[A-Za-z]`. -/
def isAsciiLetter (c : Char) : Bool :=
  ('A' ≤ c ∧ c ≤ 'Z') ∨ ('a' ≤ c ∧ c ≤ 'z')

/-- Word character of the rule patterns, `[A-Za-z0-9_]`. -/
def isToolChar (c : Char) : Bool :=
  isAsciiLetter c ∨ ('0' ≤ c ∧ c ≤ '9') ∨ c = '_'

/-- The pattern `^[A-Za-z][A-Za-z0-9_]*$`. -/
def matchesSimpleTool (l : List Char) : Bool :=
  match l with
  | [] => false
  | c :: rest => isAsciiLetter c && rest.all isToolChar

/-- The pattern `^[A-Za-z][A-Za-z0-9_]*\(.+\)$` (`.` excludes line
terminators). -/
def matchesToolWithSpecifier (l : List Char) : Bool :=
  match l with
  | [] => false
  | c :: rest =>
    isAsciiLetter c &&
      (match rest.dropWhile isToolChar with
       | '(' :: rem =>
         match rem.getLast? with
         | some ')' =>
             ¬ rem.dropLast.isEmpty &&
               rem.dropLast.all (fun ch => ch ≠ '\n' ∧ ch ≠ '\r')
         | _ => false
       | _ => false)

/-- `isValidPermissionRule`. -/
def isValidPermissionRule (rule : String) : Bool :=
  if rule = "" then false
  else matchesSimpleTool rule.data || matchesToolWithSpecifier rule.data

/-- The loop body of `validatePermissionRules` over the array items. -/
def validateRuleList (xs : List JsVal) (fieldName : String) :
    Except String Unit :=
  match xs with
  | [] => .ok ()
  | v :: rest =>
    match v with
    | .str r =>
      if isValidPermissionRule r then validateRuleList rest fieldName
      else .error ("Invalid permission rule in " ++ fieldName ++ ": \"" ++ r ++ "\"")
    | _ => .error (fieldName ++ " must contain only strings")

/-- `validatePermissionRules`: skipped for absent/falsy input, requires
an array of valid rule strings otherwise. -/
def validatePermissionRules (rules : Option JsVal) (fieldName : String) :
    Except String Unit :=
  match rules with
  | none => .ok ()
  | some v =>
    if jsFalsy v then .ok ()
    else
      match v with
      | .arr xs => validateRuleList xs fieldName
      | _ => .error (fieldName ++ " must be an array")

/-- The loop body of `validatePromptTemplates`, carrying the set of
template ids seen so far. -/
def validateTemplateList (xs : List JsVal) (seen : List String) :
    Except String Unit :=
  match xs with
  | [] => .ok ()
  | t :: rest =>
    match t with
    | .num _ => .error "Each template must be an object"
    | .str _ => .error "Each template must be an object"
    | .bool _ => .error "Each template must be an object"
    | .null => .error "Each template must be an object"
    | _ =>
      match objField t "id" with
      | some (.str id) =>
        if (jsTrim id).length = 0 then
          .error "Each template must have a non-empty id"
        else if id ∈ seen then .error ("Duplicate template id: " ++ id)
        else
          match objField t "name" with
          | some (.str nm) =>
            if (jsTrim nm).length = 0 then
              .error "Each template must have a non-empty name"
            else
              match objField t "content" with
              | some (.str _) =>
                match objField t "description" with
                | none => validateTemplateList rest (id :: seen)
                | some (.str _) => validateTemplateList rest (id :: seen)
                | some _ => .error "Template description must be a string"
              | _ => .error "Each template must have content"
          | _ => .error "Each template must have a non-empty name"
      | _ => .error "Each template must have a non-empty id"

/-- `validatePromptTemplates`. -/
def validatePromptTemplates (templates : JsVal) : Except String Unit :=
  match templates with
  | .arr xs => validateTemplateList xs []
  | _ => .error "promptTemplates must be an array"

/-- The `claudePermissions` object of the request body (each rules field
may be any runtime value, checked by the validator). -/
structure PermissionRulesJs where
  allowRules : Option JsVal := none
  denyRules : Option JsVal := none
  askRules : Option JsVal := none

/-- `UpdateSettingsBody`: `none` = field absent from the request (for
`claudePermissions`, absent-or-falsy, matching the `if (claudePermissions)`
guard).  `maxConcurrentAgents` and `promptTemplates` carry raw runtime
values since the router type-checks them. -/
structure UpdateSettingsBody where
  maxConcurrentAgents : Option JsVal := none
  claudePermissions : Option PermissionRulesJs := none
  agentPromptTemplate : Option String := none
  sendWithCtrlEnter : Option Bool := none
  historyLimit : Option JsVal := none
  enableDesktopNotifications : Option Bool := none
  appendSystemPrompt : Option String := none
  promptTemplates : Option JsVal := none

/-- Stored settings relevant to the PUT handler. -/
structure Settings where
  maxConcurrentAgents : JsVal
  claudePermissions : Option PermissionRulesJs
  agentPromptTemplate : Option String
  sendWithCtrlEnter : Option Bool
  historyLimit : Option JsVal
  enableDesktopNotifications : Option Bool
  appendSystemPrompt : Option String
  promptTemplates : Option JsVal

/-- Modelled from the spec: `SettingsRepository.update` (JSON
persistence, not among the sources) merges the supplied fields into the
stored settings and returns the result. -/
def applySettingsUpdate (cur : Settings) (b : UpdateSettingsBody) :
    Settings :=
  { maxConcurrentAgents := b.maxConcurrentAgents.getD cur.maxConcurrentAgents
    claudePermissions :=
      (b.claudePermissions.map some).getD cur.claudePermissions
    agentPromptTemplate :=
      (b.agentPromptTemplate.map some).getD cur.agentPromptTemplate
    sendWithCtrlEnter :=
      (b.sendWithCtrlEnter.map some).getD cur.sendWithCtrlEnter
    historyLimit := (b.historyLimit.map some).getD cur.historyLimit
    enableDesktopNotifications :=
      (b.enableDesktopNotifications.map some).getD cur.enableDesktopNotifications
    appendSystemPrompt :=
      (b.appendSystemPrompt.map some).getD cur.appendSystemPrompt
    promptTemplates := (b.promptTemplates.map some).getD cur.promptTemplates }

/-- The `maxConcurrentAgents` guard of the PUT handler:
`typeof maxConcurrentAgents !== 'number' || maxConcurrentAgents < 1`. -/
def checkMaxConcurrentAgents : Option JsVal → Except String Unit
  | none => .ok ()
  | some (.num x) =>
      if x < 1 then .error "maxConcurrentAgents must be a positive number"
      else .ok ()
  | some _ => .error "maxConcurrentAgents must be a positive number"

/-- The PUT `/settings` handler: run the validations in source order,
then apply the repository update and return the updated settings.
A `ValidationError` is the `Except.error` case; the repository update is
only reached when every check passed.  (The `onSettingsChange`
notification callback is not modelled.) -/
def putSettings (b : UpdateSettingsBody) (cur : Settings) :
    Except String Settings := do
  checkMaxConcurrentAgents b.maxConcurrentAgents
  (match b.claudePermissions with
   | none => Except.ok ()
   | some p => do
       validatePermissionRules p.allowRules "allowRules"
       validatePermissionRules p.denyRules "denyRules"
       validatePermissionRules p.askRules "askRules")
  (match b.promptTemplates with
   | none => Except.ok ()
   | some t => validatePromptTemplates t)
  pure (applySettingsUpdate cur b)

/-- The settings stored after a PUT request: unchanged when the handler
threw, the update result otherwise. -/
def storedAfterPut (b : UpdateSettingsBody) (cur : Settings) : Settings :=
  match putSettings b cur with
  | .ok updated => updated
  | .error _ => cur

/-! ## Claude optimization service
(`src/services/claude-optimization-service.ts`) -/

/-- Consume `sep` as a prefix of `l`, returning the remainder. -/
def consume : List Char → List Char → Option (List Char)
  | [], l => some l
  | _ :: _, [] => none
  | s :: ss, c :: cs => if c = s then consume ss cs else none

/-- Fuel-driven splitter: at each position, either the separator is
consumed (starting a new piece) or one character is shifted into the
accumulator.  One fuel unit per character suffices for a non-empty
separator. -/
def jsSplitFuel (sep : List Char) : Nat → List Char → List Char →
    List (List Char)
  | _, [], acc => [acc.reverse]
  | 0, l, acc => [acc.reverse ++ l]
  | fuel + 1, c :: cs, acc =>
      match consume sep (c :: cs) with
      | some post => acc.reverse :: jsSplitFuel sep fuel post []
      | none => jsSplitFuel sep fuel cs (c :: acc)

/-- `String.prototype.split` on a non-empty separator string: leftmost,
non-overlapping occurrences.  (The empty-separator behaviour of JS is
not modelled; the service only splits on fixed non-empty markers.) -/
def jsSplit (s sep : String) : List String :=
  if sep = "" then [s]
  else (jsSplitFuel sep.data s.data.length s.data []).map String.mk

/-- `String.prototype.includes` for a non-empty needle: the split on it
has at least two pieces. -/
def jsIncludes (s sub : String) : Bool :=
  2 ≤ (jsSplit s sub).length

/-- Parsed optimization output. -/
structure CollectedOutput where
  optimizedContent : String
  summary : String
deriving DecidableEq, Repr

/-- The backtick character. -/
def btick : Char := Char.ofNat 96

/-- The lazy capture `([\s\S]*?)` up to the closing triple backtick:
the characters before the first occurrence of three consecutive
backticks, or `none` if there is no closing fence. -/
def tickBody : List Char → Option (List Char)
  | [] => none
  | [_] => none
  | [_, _] => none
  | a :: b :: c :: rest =>
      if a = btick ∧ b = btick ∧ c = btick then some []
      else (tickBody (b :: c :: rest)).map (a :: ·)

/-- One attempt of the regex ```` /```(?:markdown)?\n([\s\S]*?)```/ ````
anchored at the current position: an opening fence, optionally the word
`markdown`, a newline, then the lazy body up to a closing fence. -/
def tryOpenFence (l : List Char) : Option (List Char) :=
  if l.take 3 = [btick, btick, btick] then
    let l3 := l.drop 3
    if l3.take 9 = ("markdown\n").data then tickBody (l3.drop 9)
    else
      match l3 with
      | c :: rest => if c = '\n' then tickBody rest else none
      | [] => none
  else none

/-- `String.prototype.match` with the code-block regex: leftmost
successful match, returning the capture group. -/
def findCodeBlock : List Char → Option (List Char)
  | [] => none
  | c :: rest => (tryOpenFence (c :: rest)).orElse (fun _ => findCodeBlock rest)

/-- `parseOptimizationOutput`. -/
def parseOptimizationOutput (content : String) : Option CollectedOutput :=
  if ¬ (jsIncludes content "OPTIMIZED_CONTENT:" ∧ jsIncludes content "SUMMARY:") then
    none
  else
    let parts := jsSplit content "OPTIMIZED_CONTENT:"
    if parts.length < 2 then none
    else
      match parts[1]? with
      | none => none
      | some afterMarker =>
        match findCodeBlock afterMarker.data with
        | none => none
        | some cap =>
          if cap.isEmpty then none
          else
            let optimizedContent := jsTrim (String.mk cap)
            let summaryParts := jsSplit content "SUMMARY:"
            if summaryParts.length < 2 then none
            else
              match summaryParts[1]? with
              | none => none
              | some sp =>
                if sp = "" then none
                else some { optimizedContent := optimizedContent, summary := jsTrim sp }

/-- One line of `generateDiff`'s loop body (empty-string padding past
the end of either text; string truthiness is non-emptiness). -/
def diffLine (origLine optLine : String) : String :=
  if origLine ≠ optLine then
    if origLine ≠ "" ∧ optLine = "" then "- " ++ origLine ++ "\n"
    else if origLine = "" ∧ optLine ≠ "" then "+ " ++ optLine ++ "\n"
    else "- " ++ origLine ++ "\n" ++ "+ " ++ optLine ++ "\n"
  else ""

/-- `generateDiff`: positional line-by-line comparison. -/
def generateDiff (original optimized : String) : String :=
  let originalLines := jsSplit original "\n"
  let optimizedLines := jsSplit optimized "\n"
  let maxLines := max originalLines.length optimizedLines.length
  (List.range maxLines).foldl
    (fun acc i =>
      acc ++ diffLine (originalLines.getD i "") (optimizedLines.getD i "")) ""

/-! ## Invariants and sample data used by the verification -/

/-- Iteration-bound invariant: every persisted record's
`currentIteration` stays within its `maxTurns`. -/
def invBound (s : ServiceState) : Prop :=
  ∀ p t st, repoFind s p t = some st →
    st.currentIteration ≤ st.config.maxTurns

/-- A string not containing the `:` key separator (project ids are
generated identifiers, so the `projectId:taskId` key is unambiguous). -/
def colonFree (x : String) : Prop := ':' ∉ x.data

instance (x : String) : Decidable (colonFree x) :=
  inferInstanceAs (Decidable (':' ∉ x.data))

/-- A persisted status that marks a finished loop. -/
def terminalStatus (st : RalphLoopStatus) : Prop :=
  st = .completed ∨ st = .failed

instance (st : RalphLoopStatus) : Decidable (terminalStatus st) :=
  inferInstanceAs (Decidable (st = .completed ∨ st = .failed))

/-- Map discipline: no loop whose persisted status is `completed` or
`failed` keeps an entry in the active-loops map. -/
def noGhost (s : ServiceState) : Prop :=
  ∀ p t st, colonFree p → repoFind s p t = some st →
    terminalStatus st.status →
    alGet s.activeLoops (getLoopKey p t) = none

/-- A state transformation preserving both invariants. -/
def PresInv (s s' : ServiceState) : Prop :=
  (invBound s → invBound s') ∧ (noGhost s → noGhost s')

/-- Concrete environment for witnesses. -/
def sampleEnv : LoopEnv :=
  { projectPath := fun _ => some "/proj"
    workerResult := fun _ => .ok { workerOutput := "worker out" }
    reviewerResult := fun _ _ => .ok { decision := .approve, output := "ok" } }

/-- Concrete persisted record for witnesses. -/
def sampleRecord : RalphLoopState :=
  { taskId := "t1", projectId := "p1"
    config := { maxTurns := 2, workerModel := "wm", reviewerModel := "rm" }
    currentIteration := 0, status := .idle, finalStatus := none
    error := none, summaries := [], feedback := [] }

/-- Concrete active entry for witnesses. -/
def sampleActive : ActiveLoopState :=
  { taskId := "t1", projectId := "p1", shouldContinue := true,
    currentPhase := none }

/-- Concrete service state for witnesses. -/
def sampleState : ServiceState :=
  { activeLoops := [(getLoopKey "p1" "t1", sampleActive)]
    repo := [(("p1", "t1"), sampleRecord)]
    events := [] }

/-- Concrete stored settings for witnesses. -/
def sampleSettings : Settings :=
  { maxConcurrentAgents := .num 3, claudePermissions := none
    agentPromptTemplate := none, sendWithCtrlEnter := none
    historyLimit := none, enableDesktopNotifications := none
    appendSystemPrompt := none, promptTemplates := none }

/-- State after the worker phase's bookkeeping prefix: phase marked and
`worker_running` persisted/emitted. -/
def workerMarked (s : ServiceState) (pid tid : String)
    (a : ActiveLoopState) : ServiceState :=
  updateStatus ({ s with activeLoops := alSet s.activeLoops (getLoopKey pid tid) ({ a with currentPhase := some LoopPhase.worker }) }) pid tid .worker_running

/-- State after the worker summary is persisted and `worker_complete`
emitted, right before the reviewer phase is entered. -/
def workerPersisted (s : ServiceState) (pid tid : String)
    (a : ActiveLoopState) (summary : IterationSummary) : ServiceState :=
  emitEvent (repoAddSummary (workerMarked s pid tid a) pid tid summary)
    (.worker_complete pid tid summary)

/-- The fresh record `start` persists. -/
def startRecord (pid : String) (cfg : RalphLoopConfig) (tid : String) :
    RalphLoopState :=
  { taskId := tid, projectId := pid, config := cfg,
    currentIteration := 0, status := .idle, finalStatus := none,
    error := none, summaries := [], feedback := [] }

/-- The state `start` builds before running the first iteration:
record created, active entry registered. -/
def startState (s : ServiceState) (pid : String) (cfg : RalphLoopConfig)
    (tid : String) : ServiceState :=
  let s1 := repoCreate s (startRecord pid cfg tid)
  { s1 with activeLoops := alSet s1.activeLoops (getLoopKey pid tid) ({ taskId := tid, projectId := pid, shouldContinue := true, currentPhase := none }) }

/-- The state `resume` builds before scheduling the next iteration:
active entry re-registered, status set to `idle`. -/
def resumeState (s : ServiceState) (pid tid : String) : ServiceState :=
  updateStatus ({ s with activeLoops := alSet s.activeLoops (getLoopKey pid tid) ({ taskId := tid, projectId := pid, shouldContinue := true, currentPhase := none }) }) pid tid .idle

/-! ## Association-list and state-projection lemmas -/

theorem alGet_alSet_self {κ α : Type} [DecidableEq κ]
    (m : List (κ × α)) (k : κ) (v : α) :
    alGet (alSet m k v) k = some v := by
  induction m with
  | nil => simp [alSet, alGet]
  | cons p rest ih =>
    obtain ⟨k', v'⟩ := p
    by_cases h : k' = k <;> simp [alSet, alGet, h, ih]

theorem alGet_alSet_ne {κ α : Type} [DecidableEq κ]
    (m : List (κ × α)) (k k' : κ) (v : α) (h : k ≠ k') :
    alGet (alSet m k v) k' = alGet m k' := by
  induction m with
  | nil => simp [alSet, alGet, h]
  | cons p rest ih =>
    obtain ⟨k0, v0⟩ := p
    by_cases h0 : k0 = k <;> simp [alSet, alGet, h0, h, ih]

theorem alGet_alDelete_self {κ α : Type} [DecidableEq κ]
    (m : List (κ × α)) (k : κ) :
    alGet (alDelete m k) k = none := by
  induction m with
  | nil => simp [alDelete, alGet]
  | cons p rest ih =>
    obtain ⟨k0, v0⟩ := p
    by_cases h0 : k0 = k <;> simp [alDelete, alGet, h0, ih]

theorem alGet_alDelete_ne {κ α : Type} [DecidableEq κ]
    (m : List (κ × α)) (k k' : κ) (h : k ≠ k') :
    alGet (alDelete m k) k' = alGet m k' := by
  induction m with
  | nil => simp [alDelete, alGet]
  | cons p rest ih =>
    obtain ⟨k0, v0⟩ := p
    by_cases h0 : k0 = k
    · subst h0; simp [alDelete, alGet, h, ih]
    · by_cases h1 : k0 = k' <;>
        simp [alDelete, alGet, h0, h1, ih, Ne.symm h]

theorem activeLoops_emitEvent (s : ServiceState) (e : LoopEvent) :
    (emitEvent s e).activeLoops = s.activeLoops := rfl

theorem repo_emitEvent (s : ServiceState) (e : LoopEvent) :
    (emitEvent s e).repo = s.repo := rfl

theorem events_emitEvent (s : ServiceState) (e : LoopEvent) :
    (emitEvent s e).events = e :: s.events := rfl

theorem activeLoops_repoUpdate (s : ServiceState) (p t : String)
    (u : LoopUpdate) : (repoUpdate s p t u).activeLoops = s.activeLoops := by
  unfold repoUpdate; split <;> rfl

theorem events_repoUpdate (s : ServiceState) (p t : String)
    (u : LoopUpdate) : (repoUpdate s p t u).events = s.events := by
  unfold repoUpdate; split <;> rfl

theorem activeLoops_repoAddSummary (s : ServiceState) (p t : String)
    (x : IterationSummary) :
    (repoAddSummary s p t x).activeLoops = s.activeLoops := by
  unfold repoAddSummary; split <;> rfl

theorem events_repoAddSummary (s : ServiceState) (p t : String)
    (x : IterationSummary) :
    (repoAddSummary s p t x).events = s.events := by
  unfold repoAddSummary; split <;> rfl

theorem activeLoops_repoAddFeedback (s : ServiceState) (p t : String)
    (x : ReviewerFeedback) :
    (repoAddFeedback s p t x).activeLoops = s.activeLoops := by
  unfold repoAddFeedback; split <;> rfl

theorem events_repoAddFeedback (s : ServiceState) (p t : String)
    (x : ReviewerFeedback) :
    (repoAddFeedback s p t x).events = s.events := by
  unfold repoAddFeedback; split <;> rfl

theorem repoFind_withActive (s : ServiceState)
    (m : List (String × ActiveLoopState)) (p t : String) :
    repoFind { s with activeLoops := m } p t = repoFind s p t := rfl

theorem repoFind_emitEvent (s : ServiceState) (e : LoopEvent)
    (p t : String) : repoFind (emitEvent s e) p t = repoFind s p t := rfl

theorem repoFind_repoUpdate_self {s : ServiceState} {p t : String}
    {st : RalphLoopState} (u : LoopUpdate)
    (h : repoFind s p t = some st) :
    repoFind (repoUpdate s p t u) p t = some (applyUpdate st u) := by
  unfold repoFind at *
  unfold repoUpdate
  rw [h]
  simp [repoFind, alGet_alSet_self]

theorem repoUpdate_of_none {s : ServiceState} {p t : String}
    (u : LoopUpdate) (h : repoFind s p t = none) :
    repoUpdate s p t u = s := by
  unfold repoFind at h
  unfold repoUpdate
  rw [h]

theorem repoFind_repoUpdate_ne {s : ServiceState} {p t p' t' : String}
    (u : LoopUpdate) (h : (p, t) ≠ (p', t')) :
    repoFind (repoUpdate s p t u) p' t' = repoFind s p' t' := by
  unfold repoUpdate
  cases halg : alGet s.repo (p, t) with
  | none => rfl
  | some st => simp [repoFind, alGet_alSet_ne _ _ _ _ h]

theorem repoFind_repoAddSummary_self {s : ServiceState} {p t : String}
    {st : RalphLoopState} (x : IterationSummary)
    (h : repoFind s p t = some st) :
    repoFind (repoAddSummary s p t x) p t =
      some ({ st with summaries := st.summaries ++ [x] }) := by
  unfold repoFind at *
  unfold repoAddSummary
  rw [h]
  simp [repoFind, alGet_alSet_self]

theorem repoFind_repoAddSummary_ne {s : ServiceState} {p t p' t' : String}
    (x : IterationSummary) (h : (p, t) ≠ (p', t')) :
    repoFind (repoAddSummary s p t x) p' t' = repoFind s p' t' := by
  unfold repoAddSummary
  cases halg : alGet s.repo (p, t) with
  | none => rfl
  | some st => simp [repoFind, alGet_alSet_ne _ _ _ _ h]

theorem repoFind_repoAddFeedback_self {s : ServiceState} {p t : String}
    {st : RalphLoopState} (x : ReviewerFeedback)
    (h : repoFind s p t = some st) :
    repoFind (repoAddFeedback s p t x) p t =
      some ({ st with feedback := st.feedback ++ [x] }) := by
  unfold repoFind at *
  unfold repoAddFeedback
  rw [h]
  simp [repoFind, alGet_alSet_self]

theorem repoFind_repoAddFeedback_ne {s : ServiceState} {p t p' t' : String}
    (x : ReviewerFeedback) (h : (p, t) ≠ (p', t')) :
    repoFind (repoAddFeedback s p t x) p' t' = repoFind s p' t' := by
  unfold repoAddFeedback
  cases halg : alGet s.repo (p, t) with
  | none => rfl
  | some st => simp [repoFind, alGet_alSet_ne _ _ _ _ h]

theorem catchStopped_fst (r : ServiceState × LoopOutcome) (key : String) :
    (catchStopped r key).1 = r.1 := by
  obtain ⟨s, o⟩ := r
  cases o with
  | ok => rfl
  | fuelOut => rfl
  | err msg =>
    unfold catchStopped
    rcases h : alGet s.activeLoops key with _ | a
    · simp [h]
    · by_cases hb : a.shouldContinue <;> simp [h, hb]

/-! ## Invariant preservation building blocks -/

theorem PresInv_refl (s : ServiceState) : PresInv s s :=
  ⟨fun h => h, fun h => h⟩

theorem PresInv_trans {s1 s3 : ServiceState} (s2 : ServiceState)
    (h12 : PresInv s1 s2) (h23 : PresInv s2 s3) : PresInv s1 s3 :=
  ⟨fun h => h23.1 (h12.1 h), fun h => h23.2 (h12.2 h)⟩

theorem PresInv_emitEvent (s : ServiceState) (e : LoopEvent) :
    PresInv s (emitEvent s e) :=
  ⟨fun h => h, fun h => h⟩

theorem invBound_alSet {s : ServiceState} {p t : String}
    {st : RalphLoopState} (hb : invBound s)
    (hle : st.currentIteration ≤ st.config.maxTurns) :
    invBound { s with repo := alSet s.repo (p, t) st } := by
  intro p' t' st' hf
  unfold repoFind at hf
  by_cases hk : ((p, t) : String × String) = (p', t')
  · rw [← hk, alGet_alSet_self] at hf
    cases hf
    exact hle
  · rw [alGet_alSet_ne _ _ _ _ hk] at hf
    exact hb p' t' st' hf

theorem noGhost_alSet_repo {s : ServiceState} {p t : String}
    {st : RalphLoopState} (hg : noGhost s)
    (hcond : colonFree p → terminalStatus st.status →
      alGet s.activeLoops (getLoopKey p t) = none) :
    noGhost { s with repo := alSet s.repo (p, t) st } := by
  intro p' t' st' hcf hf hterm
  unfold repoFind at hf
  by_cases hk : ((p, t) : String × String) = (p', t')
  · rw [← hk, alGet_alSet_self] at hf
    cases hf
    obtain ⟨hp, ht⟩ := Prod.mk.injEq p t p' t' ▸ hk
    subst hp; subst ht
    exact hcond hcf hterm
  · rw [alGet_alSet_ne _ _ _ _ hk] at hf
    exact hg p' t' st' hcf hf hterm

theorem invBound_repoUpdate {s : ServiceState} {p t : String}
    {u : LoopUpdate} (hb : invBound s)
    (hnew : ∀ st, repoFind s p t = some st →
      (applyUpdate st u).currentIteration ≤
        (applyUpdate st u).config.maxTurns) :
    invBound (repoUpdate s p t u) := by
  unfold repoUpdate
  rcases h : alGet s.repo (p, t) with _ | st
  · exact hb
  · exact invBound_alSet hb (hnew st h)

theorem noGhost_repoUpdate {s : ServiceState} {p t : String}
    {u : LoopUpdate} (hg : noGhost s)
    (hcond : ∀ st, repoFind s p t = some st → colonFree p →
      terminalStatus (applyUpdate st u).status →
      alGet s.activeLoops (getLoopKey p t) = none) :
    noGhost (repoUpdate s p t u) := by
  unfold repoUpdate
  rcases h : alGet s.repo (p, t) with _ | st
  · exact hg
  · exact noGhost_alSet_repo hg (hcond st h)

theorem noGhost_deleteActive {s : ServiceState} (k : String)
    (hg : noGhost s) :
    noGhost { s with activeLoops := alDelete s.activeLoops k } := by
  intro p' t' st' hcf hf hterm
  by_cases hk : k = getLoopKey p' t'
  · rw [← hk]
    exact alGet_alDelete_self _ _
  · rw [alGet_alDelete_ne _ _ _ hk]
    exact hg p' t' st' hcf hf hterm

theorem noGhost_setActive_existing {s : ServiceState} {k : String}
    {a0 a : ActiveLoopState} (hx : alGet s.activeLoops k = some a0)
    (hg : noGhost s) :
    noGhost { s with activeLoops := alSet s.activeLoops k a } := by
  intro p' t' st' hcf hf hterm
  by_cases hk : k = getLoopKey p' t'
  · exfalso
    have hnone := hg p' t' st' hcf hf hterm
    rw [← hk] at hnone
    rw [hnone] at hx
    exact Option.noConfusion hx
  · rw [alGet_alSet_ne _ _ _ _ hk]
    exact hg p' t' st' hcf hf hterm

theorem nonterminal_worker_running : ¬ terminalStatus .worker_running := by
  rintro (h | h) <;> exact RalphLoopStatus.noConfusion h

theorem nonterminal_reviewer_running : ¬ terminalStatus .reviewer_running := by
  rintro (h | h) <;> exact RalphLoopStatus.noConfusion h

theorem nonterminal_paused : ¬ terminalStatus .paused := by
  rintro (h | h) <;> exact RalphLoopStatus.noConfusion h

theorem nonterminal_idle : ¬ terminalStatus .idle := by
  rintro (h | h) <;> exact RalphLoopStatus.noConfusion h

theorem PresInv_updateStatus_nonterminal {s : ServiceState}
    {p t : String} {st0 : RalphLoopStatus}
    (hnt : ¬ terminalStatus st0) :
    PresInv s (updateStatus s p t st0) := by
  unfold updateStatus
  refine PresInv_trans (repoUpdate s p t ({ status := some st0 }))
    ?_ (PresInv_emitEvent _ _)
  constructor
  · intro hb
    refine invBound_repoUpdate hb ?_
    intro st hf
    simp only [applyUpdate]
    exact hb p t st hf
  · intro hg
    refine noGhost_repoUpdate hg ?_
    intro st hf hcf hterm
    exact absurd hterm hnt

theorem PresInv_repoAddSummary (s : ServiceState) (p t : String)
    (x : IterationSummary) : PresInv s (repoAddSummary s p t x) := by
  unfold repoAddSummary
  rcases h : alGet s.repo (p, t) with _ | st
  · exact PresInv_refl s
  · constructor
    · intro hb
      exact invBound_alSet hb (hb p t st h)
    · intro hg
      exact noGhost_alSet_repo hg (fun hcf hterm => hg p t st hcf h hterm)

theorem PresInv_repoAddFeedback (s : ServiceState) (p t : String)
    (x : ReviewerFeedback) : PresInv s (repoAddFeedback s p t x) := by
  unfold repoAddFeedback
  rcases h : alGet s.repo (p, t) with _ | st
  · exact PresInv_refl s
  · constructor
    · intro hb
      exact invBound_alSet hb (hb p t st h)
    · intro hg
      exact noGhost_alSet_repo hg (fun hcf hterm => hg p t st hcf h hterm)

theorem PresInv_setPhase {s : ServiceState} {k : String}
    {a0 : ActiveLoopState} (a : ActiveLoopState)
    (hx : alGet s.activeLoops k = some a0) :
    PresInv s ({ s with activeLoops := alSet s.activeLoops k a }) :=
  ⟨fun h => h, noGhost_setActive_existing hx⟩

theorem PresInv_completeLoop (s : ServiceState) (p t : String)
    (fs : RalphLoopFinalStatus) : PresInv s (completeLoop s p t fs) := by
  unfold completeLoop
  refine PresInv_trans ({ s with activeLoops := alDelete s.activeLoops (getLoopKey p t) }) ⟨fun h => h, noGhost_deleteActive _⟩ ?_
  refine PresInv_trans _ ?_ (PresInv_emitEvent _ _)
  constructor
  · intro hb
    refine invBound_repoUpdate hb ?_
    intro st hf
    simp only [applyUpdate]
    exact hb p t st hf
  · intro hg
    refine noGhost_repoUpdate hg ?_
    intro st hf hcf hterm
    exact alGet_alDelete_self _ _

theorem PresInv_handleLoopError (s : ServiceState) (p t : String)
    (msg : String) : PresInv s (handleLoopError s p t msg) := by
  unfold handleLoopError
  refine PresInv_trans ({ s with activeLoops := alDelete s.activeLoops (getLoopKey p t) }) ⟨fun h => h, noGhost_deleteActive _⟩ ?_
  refine PresInv_trans _ ?_ (PresInv_emitEvent _ _)
  constructor
  · intro hb
    refine invBound_repoUpdate hb ?_
    intro st hf
    simp only [applyUpdate]
    exact hb p t st hf
  · intro hg
    refine noGhost_repoUpdate hg ?_
    intro st hf hcf hterm
    exact alGet_alDelete_self _ _

theorem PresInv_iterBump {s : ServiceState} {p t : String}
    {st : RalphLoopState} (h : repoFind s p t = some st)
    (hlt : st.currentIteration < st.config.maxTurns) :
    PresInv s (repoUpdate s p t
      ({ currentIteration := some (st.currentIteration + 1) })) := by
  constructor
  · intro hb
    refine invBound_repoUpdate hb ?_
    intro st' hf
    rw [h] at hf
    cases hf
    simp only [applyUpdate, Option.getD]
    exact hlt
  · intro hg
    refine noGhost_repoUpdate hg ?_
    intro st' hf hcf hterm
    rw [h] at hf
    cases hf
    simp only [applyUpdate] at hterm
    exact hg p t st hcf h hterm

/-- Invariant preservation for the part of the worker phase that
follows the status bookkeeping, for an arbitrary intermediate state. -/
theorem PresInv_workerAfter (env : LoopEnv) (n : Nat)
    (pid tid : String) (it : Nat) (key : String) (s s2 : ServiceState)
    (h2 : PresInv s s2)
    (ihR : ∀ wo s', PresInv s' (runReviewerPhase env n pid tid it wo s').1) :
    PresInv s ((match repoFind s2 pid tid with
      | none => (s2, LoopOutcome.ok)
      | some _ =>
        match env.projectPath pid with
        | none => (s2, LoopOutcome.err ("Project path not found for: " ++ pid))
        | some _ =>
          catchStopped
            (match env.workerResult it with
             | .error msg => (s2, LoopOutcome.err msg)
             | .ok summary =>
               let s3 := repoAddSummary s2 pid tid summary
               let s4 := emitEvent s3 (.worker_complete pid tid summary)
               match alGet s4.activeLoops key with
               | none => (s4, LoopOutcome.ok)
               | some a2 =>
                 if a2.shouldContinue then
                   runReviewerPhase env n pid tid it summary.workerOutput s4
                 else (s4, LoopOutcome.ok))
            key).1) := by
  rcases hF : repoFind s2 pid tid with _ | st
  · exact h2
  · rcases hP : env.projectPath pid with _ | path
    · exact h2
    · rw [catchStopped_fst]
      rcases hW : env.workerResult it with msg | summary
      · exact h2
      · have hS4 := PresInv_trans _ (PresInv_trans _ h2
          (PresInv_repoAddSummary s2 pid tid summary))
          (PresInv_emitEvent (repoAddSummary s2 pid tid summary)
            (.worker_complete pid tid summary))
        dsimp only
        rcases hA2 : alGet (emitEvent (repoAddSummary s2 pid tid summary)
            (.worker_complete pid tid summary)).activeLoops key with _ | a2
        · exact hS4
        · by_cases hSC2 : a2.shouldContinue
          · simp only [hSC2, if_true]
            exact PresInv_trans _ hS4 (ihR summary.workerOutput _)
          · simp only [hSC2, if_false]
            exact hS4

/-- Invariant preservation for the part of the reviewer phase that
follows the status bookkeeping, for an arbitrary intermediate state. -/
theorem PresInv_reviewerAfter (env : LoopEnv) (n : Nat)
    (pid tid : String) (it : Nat) (wo : String) (key : String)
    (s s2 : ServiceState) (h2 : PresInv s s2)
    (ihD : ∀ fb s', PresInv s' (handleReviewerDecision env n pid tid fb s').1) :
    PresInv s ((match repoFind s2 pid tid with
      | none => (s2, LoopOutcome.ok)
      | some _ =>
        match env.projectPath pid with
        | none => (s2, LoopOutcome.err ("Project path not found for: " ++ pid))
        | some _ =>
          catchStopped
            (match env.reviewerResult it wo with
             | .error msg => (s2, LoopOutcome.err msg)
             | .ok fb =>
               let s3 := repoAddFeedback s2 pid tid fb
               let s4 := emitEvent s3 (.reviewer_complete pid tid fb)
               match alGet s4.activeLoops key with
               | none => (s4, LoopOutcome.ok)
               | some a2 =>
                 if a2.shouldContinue then
                   handleReviewerDecision env n pid tid fb s4
                 else (s4, LoopOutcome.ok))
            key).1) := by
  rcases hF : repoFind s2 pid tid with _ | st
  · exact h2
  · rcases hP : env.projectPath pid with _ | path
    · exact h2
    · rw [catchStopped_fst]
      rcases hR : env.reviewerResult it wo with msg | fb
      · exact h2
      · have hS4 := PresInv_trans _ (PresInv_trans _ h2
          (PresInv_repoAddFeedback s2 pid tid fb))
          (PresInv_emitEvent (repoAddFeedback s2 pid tid fb)
            (.reviewer_complete pid tid fb))
        dsimp only
        rcases hA2 : alGet (emitEvent (repoAddFeedback s2 pid tid fb)
            (.reviewer_complete pid tid fb)).activeLoops key with _ | a2
        · exact hS4
        · by_cases hSC2 : a2.shouldContinue
          · simp only [hSC2, if_true]
            exact PresInv_trans _ hS4 (ihD fb _)
          · simp only [hSC2, if_false]
            exact hS4

/-- Both invariants are preserved by every phase function, for every
fuel value: the combined fuel induction over the mutual recursion. -/
theorem phasesPresInv (env : LoopEnv) : ∀ fuel : Nat,
    (∀ pid tid s, PresInv s (runNextIteration env fuel pid tid s).1) ∧
    (∀ pid tid it s, PresInv s (runWorkerPhase env fuel pid tid it s).1) ∧
    (∀ pid tid it wo s,
      PresInv s (runReviewerPhase env fuel pid tid it wo s).1) ∧
    (∀ pid tid fb s,
      PresInv s (handleReviewerDecision env fuel pid tid fb s).1) := by
  intro fuel
  induction fuel with
  | zero =>
    refine ⟨?_, ?_, ?_, ?_⟩ <;> intros <;> exact PresInv_refl _
  | succ n ih =>
    obtain ⟨ihN, ihW, ihR, ihD⟩ := ih
    refine ⟨?_, ?_, ?_, ?_⟩
    · intro pid tid s
      simp only [runNextIteration]
      rcases hA : alGet s.activeLoops (getLoopKey pid tid) with _ | a
      · exact PresInv_refl s
      · by_cases hSC : a.shouldContinue
        · simp only [hSC, not_true, if_false]
          rcases hF : repoFind s pid tid with _ | st
          · exact PresInv_refl s
          · by_cases hMax : st.config.maxTurns ≤ st.currentIteration
            · simp only [if_pos hMax]
              exact PresInv_completeLoop s pid tid .max_turns_reached
            · simp only [if_neg hMax]
              refine PresInv_trans _ (PresInv_trans _
                (PresInv_iterBump hF (lt_of_not_le hMax))
                (PresInv_emitEvent _ (.iteration_start pid tid (st.currentIteration + 1)))) ?_
              exact ihW pid tid (st.currentIteration + 1) _
        · simp only [hSC, not_false_iff, if_true]
          exact PresInv_refl s
    · intro pid tid it s
      simp only [runWorkerPhase]
      rcases hA : alGet s.activeLoops (getLoopKey pid tid) with _ | a
      · exact PresInv_refl s
      · by_cases hSC : a.shouldContinue
        · simp only [hSC, not_true, if_false]
          refine PresInv_workerAfter env n pid tid it _ s _
            (PresInv_trans _ (PresInv_setPhase _ hA)
              (PresInv_updateStatus_nonterminal nonterminal_worker_running))
            (fun wo s' => ihR pid tid it wo s')
        · simp only [hSC, not_false_iff, if_true]
          exact PresInv_refl s
    · intro pid tid it wo s
      simp only [runReviewerPhase]
      rcases hA : alGet s.activeLoops (getLoopKey pid tid) with _ | a
      · exact PresInv_refl s
      · by_cases hSC : a.shouldContinue
        · simp only [hSC, not_true, if_false]
          refine PresInv_reviewerAfter env n pid tid it wo _ s _
            (PresInv_trans _ (PresInv_setPhase _ hA)
              (PresInv_updateStatus_nonterminal nonterminal_reviewer_running))
            (fun fb s' => ihD pid tid fb s')
        · simp only [hSC, not_false_iff, if_true]
          exact PresInv_refl s
    · intro pid tid fb s
      simp only [handleReviewerDecision]
      rcases hA : alGet s.activeLoops (getLoopKey pid tid) with _ | a
      · exact PresInv_refl s
      · by_cases hSC : a.shouldContinue
        · simp only [hSC, not_true, if_false]
          cases fb.decision with
          | approve => exact PresInv_completeLoop s pid tid .approved
          | reject => exact PresInv_completeLoop s pid tid .critical_failure
          | needs_changes => exact ihN pid tid s
        · simp only [hSC, not_false_iff, if_true]
          exact PresInv_refl s

/-! ## Loop-key injectivity and entry-point preservation -/

theorem list_append_mid_inj {α : Type} (c : α) :
    ∀ (a1 b1 a2 b2 : List α), c ∉ a1 → c ∉ a2 →
      a1 ++ c :: b1 = a2 ++ c :: b2 → a1 = a2 ∧ b1 = b2 := by
  intro a1
  induction a1 with
  | nil =>
    intro b1 a2 b2 h1 h2 h
    cases a2 with
    | nil =>
      simp only [List.nil_append, List.cons.injEq] at h
      exact ⟨rfl, h.2⟩
    | cons x xs =>
      simp only [List.nil_append, List.cons_append, List.cons.injEq] at h
      exact absurd (h.1 ▸ List.mem_cons_self x xs) h2
  | cons x xs ih =>
    intro b1 a2 b2 h1 h2 h
    cases a2 with
    | nil =>
      simp only [List.cons_append, List.nil_append, List.cons.injEq] at h
      exact absurd (h.1 ▸ List.mem_cons_self x xs) h1
    | cons y ys =>
      simp only [List.cons_append, List.cons.injEq] at h
      have hx : c ∉ xs := fun hm => h1 (List.mem_cons_of_mem x hm)
      have hy : c ∉ ys := fun hm => h2 (List.mem_cons_of_mem y hm)
      obtain ⟨he, ht⟩ := ih b1 ys b2 hx hy h.2
      exact ⟨by rw [h.1, he], ht⟩

theorem getLoopKey_inj {p1 t1 p2 t2 : String}
    (h1 : colonFree p1) (h2 : colonFree p2)
    (h : getLoopKey p1 t1 = getLoopKey p2 t2) : p1 = p2 ∧ t1 = t2 := by
  unfold getLoopKey at h
  have hd : (p1 ++ ":" ++ t1).data = (p2 ++ ":" ++ t2).data := by rw [h]
  rw [String.data_append, String.data_append, String.data_append,
    String.data_append] at hd
  have hc : (":" : String).data = [':'] := rfl
  rw [hc] at hd
  rw [List.append_assoc, List.append_assoc] at hd
  simp only [List.singleton_append] at hd
  obtain ⟨hp, ht⟩ := list_append_mid_inj ':' _ _ _ _ h1 h2 hd
  exact ⟨String.ext hp, String.ext ht⟩

theorem noGhost_insertActive {s : ServiceState} {pid tid : String}
    (a : ActiveLoopState) (hcf : colonFree pid)
    (hrec : ∀ st, repoFind s pid tid = some st → ¬ terminalStatus st.status)
    (hg : noGhost s) :
    noGhost ({ s with activeLoops := alSet s.activeLoops (getLoopKey pid tid) a }) := by
  intro p' t' st' hcf' hf hterm
  by_cases hk : getLoopKey pid tid = getLoopKey p' t'
  · obtain ⟨hp, ht⟩ := getLoopKey_inj hcf hcf' hk
    subst hp; subst ht
    exact absurd hterm (hrec st' hf)
  · rw [alGet_alSet_ne _ _ _ _ hk]
    exact hg p' t' st' hcf' hf hterm

theorem PresInv_driveLoop (env : LoopEnv) (fuel : Nat)
    (pid tid : String) (s : ServiceState) :
    PresInv s (driveLoop env fuel pid tid s) := by
  unfold driveLoop
  rcases hr : runNextIteration env fuel pid tid s with ⟨s1, o⟩
  have h1 : PresInv s s1 := by
    have hh := (phasesPresInv env fuel).1 pid tid s
    rw [hr] at hh
    exact hh
  cases o with
  | ok => exact h1
  | fuelOut => exact h1
  | err msg => exact PresInv_trans _ h1 (PresInv_handleLoopError s1 pid tid msg)

theorem PresInv_startLoop (env : LoopEnv) (fuel : Nat) (pid : String)
    (cfg : RalphLoopConfig) (tid : String) (s : ServiceState)
    (hcf : colonFree pid) :
    PresInv s (startLoop env fuel pid cfg tid s) := by
  unfold startLoop
  refine PresInv_trans _ ?_ (PresInv_driveLoop env fuel pid tid _)
  refine PresInv_trans (repoCreate s ({ taskId := tid, projectId := pid, config := cfg, currentIteration := 0, status := .idle, finalStatus := none, error := none, summaries := [], feedback := [] })) ?_ ?_
  · constructor
    · intro hb
      unfold repoCreate
      exact invBound_alSet hb (Nat.zero_le _)
    · intro hg
      unfold repoCreate
      exact noGhost_alSet_repo hg (fun _ hterm => absurd hterm nonterminal_idle)
  · constructor
    · intro hb
      exact hb
    · intro hg
      refine noGhost_insertActive _ hcf ?_ hg
      intro st' hf'
      unfold repoFind repoCreate at hf'
      dsimp only at hf'
      rw [alGet_alSet_self] at hf'
      cases hf'
      exact nonterminal_idle

theorem stop_activeLoops_none (s : ServiceState) (pid tid : String) :
    alGet (stop s pid tid).activeLoops (getLoopKey pid tid) = none := by
  unfold stop
  rcases h : alGet s.activeLoops (getLoopKey pid tid) with _ | a <;>
    simp only [h]
  · rw [activeLoops_repoUpdate]
    exact h
  · rw [activeLoops_repoUpdate]
    exact alGet_alDelete_self _ _

theorem PresInv_stop (s : ServiceState) (pid tid : String) :
    PresInv s (stop s pid tid) := by
  unfold stop
  rcases h : alGet s.activeLoops (getLoopKey pid tid) with _ | a <;>
    simp only [h]
  · constructor
    · intro hb
      refine invBound_repoUpdate hb ?_
      intro st hf
      simp only [applyUpdate]
      exact hb pid tid st hf
    · intro hg
      refine noGhost_repoUpdate hg ?_
      intro st hf hcf hterm
      exact h
  · refine PresInv_trans ({ s with activeLoops := alDelete (alSet s.activeLoops (getLoopKey pid tid) ({ a with shouldContinue := false })) (getLoopKey pid tid) }) ?_ ?_
    · constructor
      · intro hb
        exact hb
      · intro hg
        have hg1 := noGhost_setActive_existing (a := { a with shouldContinue := false }) h hg
        exact noGhost_deleteActive _ hg1
    · constructor
      · intro hb
        refine invBound_repoUpdate hb ?_
        intro st hf
        simp only [applyUpdate]
        exact hb pid tid st hf
      · intro hg
        refine noGhost_repoUpdate hg ?_
        intro st hf hcf hterm
        exact alGet_alDelete_self _ _

theorem PresInv_pause (s : ServiceState) (pid tid : String) :
    PresInv s (pause s pid tid) := by
  unfold pause
  rcases h : alGet s.activeLoops (getLoopKey pid tid) with _ | a <;>
    simp only [h]
  · exact PresInv_updateStatus_nonterminal nonterminal_paused
  · refine PresInv_trans _ (PresInv_setPhase ({ a with shouldContinue := false }) h) ?_
    exact PresInv_updateStatus_nonterminal nonterminal_paused

theorem PresInv_resume {env : LoopEnv} {fuel : Nat} {pid tid : String}
    {s s' : ServiceState} (hcf : colonFree pid)
    (h : resume env fuel pid tid s = .ok s') : PresInv s s' := by
  unfold resume at h
  rcases hf : repoFind s pid tid with _ | st
  · rw [hf] at h
    exact Except.noConfusion h
  · simp only [hf] at h
    by_cases hp : st.status = .paused
    · rw [if_pos hp] at h
      injection h with h
      subst h
      refine PresInv_trans _ ?_ (PresInv_driveLoop env fuel pid tid _)
      refine PresInv_trans _ ?_ (PresInv_updateStatus_nonterminal nonterminal_idle)
      constructor
      · intro hb
        exact hb
      · intro hg
        refine noGhost_insertActive _ hcf ?_ hg
        intro st' hf'
        rw [hf] at hf'
        cases hf'
        rw [hp]
        exact nonterminal_paused
    · rw [if_neg hp] at h
      exact Except.noConfusion h

theorem completeLoop_activeLoops_none (s : ServiceState) (p t : String)
    (fs : RalphLoopFinalStatus) :
    alGet (completeLoop s p t fs).activeLoops (getLoopKey p t) = none := by
  unfold completeLoop
  rw [activeLoops_emitEvent, activeLoops_repoUpdate]
  exact alGet_alDelete_self _ _

theorem repoFind_completeLoop {s : ServiceState} {p t : String}
    {r : RalphLoopState} (fs : RalphLoopFinalStatus)
    (hf : repoFind s p t = some r) :
    repoFind (completeLoop s p t fs) p t =
      some ({ r with status := .completed, finalStatus := some fs }) := by
  unfold completeLoop
  rw [repoFind_emitEvent]
  have hf1 : repoFind ({ s with activeLoops := alDelete s.activeLoops (getLoopKey p t) }) p t = some r := hf
  rw [repoFind_repoUpdate_self _ hf1]
  simp [applyUpdate]

theorem events_completeLoop (s : ServiceState) (p t : String)
    (fs : RalphLoopFinalStatus) :
    (completeLoop s p t fs).events = .loop_complete p t fs :: s.events := by
  unfold completeLoop
  rw [events_emitEvent, events_repoUpdate]

theorem handleLoopError_activeLoops_none (s : ServiceState) (p t : String)
    (msg : String) :
    alGet (handleLoopError s p t msg).activeLoops (getLoopKey p t) = none := by
  unfold handleLoopError
  rw [activeLoops_emitEvent, activeLoops_repoUpdate]
  exact alGet_alDelete_self _ _

theorem repoFind_handleLoopError {s : ServiceState} {p t : String}
    {r : RalphLoopState} (msg : String) (hf : repoFind s p t = some r) :
    repoFind (handleLoopError s p t msg) p t =
      some ({ r with status := .failed, finalStatus := some .critical_failure, error := some msg }) := by
  unfold handleLoopError
  rw [repoFind_emitEvent]
  have hf1 : repoFind ({ s with activeLoops := alDelete s.activeLoops (getLoopKey p t) }) p t = some r := hf
  rw [repoFind_repoUpdate_self _ hf1]
  simp [applyUpdate]

theorem events_handleLoopError (s : ServiceState) (p t : String)
    (msg : String) :
    (handleLoopError s p t msg).events = .loop_error p t msg :: s.events := by
  unfold handleLoopError
  rw [events_emitEvent, events_repoUpdate]

/-! ## Claim theorems -/

/-- C1: when reviewer feedback is handled while the loop is active
(registered with `shouldContinue`), the decision determines the
continuation exactly: `approve` completes the loop with final status
`approved`, `reject` completes it with `critical_failure`, and
`needs_changes` starts the next iteration; the completion updates the
persisted record accordingly. -/
theorem ralph_decision_determines_continuation
    (env : LoopEnv) (fuel : Nat) (pid tid : String)
    (fb : ReviewerFeedback) (s : ServiceState) (a : ActiveLoopState)
    (hA : alGet s.activeLoops (getLoopKey pid tid) = some a)
    (hSC : a.shouldContinue = true) :
    (fb.decision = .approve →
      handleReviewerDecision env (fuel + 1) pid tid fb s =
        (completeLoop s pid tid .approved, .ok) ∧
      (∀ r, repoFind s pid tid = some r →
        repoFind (completeLoop s pid tid .approved) pid tid =
          some ({ r with status := .completed, finalStatus := some .approved }))) ∧
    (fb.decision = .reject →
      handleReviewerDecision env (fuel + 1) pid tid fb s =
        (completeLoop s pid tid .critical_failure, .ok) ∧
      (∀ r, repoFind s pid tid = some r →
        repoFind (completeLoop s pid tid .critical_failure) pid tid =
          some ({ r with status := .completed, finalStatus := some .critical_failure }))) ∧
    (fb.decision = .needs_changes →
      handleReviewerDecision env (fuel + 1) pid tid fb s =
        runNextIteration env fuel pid tid s) := by
  refine ⟨?_, ?_, ?_⟩ <;> intro hd
  · refine ⟨?_, fun r hr => repoFind_completeLoop _ hr⟩
    simp [handleReviewerDecision, hA, hSC, hd]
  · refine ⟨?_, fun r hr => repoFind_completeLoop _ hr⟩
    simp [handleReviewerDecision, hA, hSC, hd]
  · simp [handleReviewerDecision, hA, hSC, hd]

/-- Witness for C1 at a concrete state and approving feedback. -/
theorem ralph_decision_determines_continuation_witness :
    alGet sampleState.activeLoops (getLoopKey "p1" "t1") = some sampleActive ∧
    sampleActive.shouldContinue = true ∧
    handleReviewerDecision sampleEnv 3 "p1" "t1"
      ({ decision := .approve, output := "ok" }) sampleState =
      (completeLoop sampleState "p1" "t1" .approved, .ok) := by
  refine ⟨by decide, rfl, ?_⟩
  exact ((ralph_decision_determines_continuation sampleEnv 2 "p1" "t1"
    ({ decision := .approve, output := "ok" }) sampleState sampleActive
    (by decide) rfl).1 rfl).1

/-- C2: within an iteration, if the worker agent fails, the phase stops
at the `worker_running` bookkeeping and rethrows — no reviewer activity
occurs; if the worker succeeds, the reviewer phase is entered only on
the state in which the summary is already persisted and
`worker_complete` emitted, and it receives that summary's
`workerOutput`. -/
theorem ralph_worker_before_reviewer
    (env : LoopEnv) (fuel : Nat) (pid tid : String) (iter : Nat)
    (s : ServiceState) (a : ActiveLoopState) (st : RalphLoopState)
    (path : String)
    (hA : alGet s.activeLoops (getLoopKey pid tid) = some a)
    (hSC : a.shouldContinue = true)
    (hF : repoFind s pid tid = some st)
    (hP : env.projectPath pid = some path) :
    (∀ msg, env.workerResult iter = .error msg →
      runWorkerPhase env (fuel + 1) pid tid iter s =
        (workerMarked s pid tid a, .err msg) ∧
      (workerMarked s pid tid a).events =
        .status_change pid tid .worker_running :: s.events ∧
      repoFind (workerMarked s pid tid a) pid tid =
        some ({ st with status := .worker_running })) ∧
    (∀ summary, env.workerResult iter = .ok summary →
      runWorkerPhase env (fuel + 1) pid tid iter s =
        catchStopped (runReviewerPhase env fuel pid tid iter
          summary.workerOutput (workerPersisted s pid tid a summary))
          (getLoopKey pid tid) ∧
      repoFind (workerPersisted s pid tid a summary) pid tid =
        some ({ st with status := .worker_running, summaries := st.summaries ++ [summary] }) ∧
      (workerPersisted s pid tid a summary).events =
        .worker_complete pid tid summary ::
          .status_change pid tid .worker_running :: s.events) := by
  have hFW : repoFind (workerMarked s pid tid a) pid tid =
      some (applyUpdate st ({ status := some RalphLoopStatus.worker_running })) := by
    unfold workerMarked updateStatus
    rw [repoFind_emitEvent]
    exact repoFind_repoUpdate_self _ hF
  have hFW2 : repoFind (workerMarked s pid tid a) pid tid =
      some ({ st with status := .worker_running }) := by
    rw [hFW]
    simp [applyUpdate]
  have hAW : alGet (workerMarked s pid tid a).activeLoops (getLoopKey pid tid) =
      some ({ a with currentPhase := some LoopPhase.worker }) := by
    unfold workerMarked updateStatus
    rw [activeLoops_emitEvent, activeLoops_repoUpdate]
    exact alGet_alSet_self _ _ _
  have hEW : (workerMarked s pid tid a).events =
      .status_change pid tid .worker_running :: s.events := by
    unfold workerMarked updateStatus
    rw [events_emitEvent, events_repoUpdate]
  constructor
  · intro msg hW
    refine ⟨?_, hEW, hFW2⟩
    show runWorkerPhase env (fuel + 1) pid tid iter s =
      (workerMarked s pid tid a, LoopOutcome.err msg)
    rw [runWorkerPhase]
    simp only [hA]
    rw [if_neg (not_not_intro hSC)]
    rw [show (updateStatus ({ s with activeLoops := alSet s.activeLoops (getLoopKey pid tid) ({ a with currentPhase := some LoopPhase.worker }) }) pid tid RalphLoopStatus.worker_running) = workerMarked s pid tid a from rfl]
    simp only [hFW, hP, hW]
    unfold catchStopped
    simp only [hAW]
    simp [hSC]
  · intro summary hW
    have hFP : repoFind (workerPersisted s pid tid a summary) pid tid =
        some ({ st with status := .worker_running, summaries := st.summaries ++ [summary] }) := by
      unfold workerPersisted
      rw [repoFind_emitEvent]
      rw [repoFind_repoAddSummary_self _ hFW2]
    have hEP : (workerPersisted s pid tid a summary).events =
        .worker_complete pid tid summary ::
          .status_change pid tid .worker_running :: s.events := by
      unfold workerPersisted
      rw [events_emitEvent, events_repoAddSummary, hEW]
    refine ⟨?_, hFP, hEP⟩
    rw [runWorkerPhase]
    simp only [hA]
    rw [if_neg (not_not_intro hSC)]
    rw [show (updateStatus ({ s with activeLoops := alSet s.activeLoops (getLoopKey pid tid) ({ a with currentPhase := some LoopPhase.worker }) }) pid tid RalphLoopStatus.worker_running) = workerMarked s pid tid a from rfl]
    simp only [hFW, hP, hW]
    have hAP : alGet (emitEvent (repoAddSummary (workerMarked s pid tid a) pid tid summary) (.worker_complete pid tid summary)).activeLoops (getLoopKey pid tid) =
        some ({ a with currentPhase := some LoopPhase.worker }) := by
      rw [activeLoops_emitEvent, activeLoops_repoAddSummary]
      exact hAW
    simp only [hAP]
    simp [hSC, workerPersisted]

/-- Witness for C2 at a concrete state, with a failing worker agent. -/
theorem ralph_worker_before_reviewer_witness :
    runWorkerPhase ({ sampleEnv with workerResult := fun _ => .error "boom" })
      5 "p1" "t1" 1 sampleState =
      (workerMarked sampleState "p1" "t1" sampleActive, .err "boom") ∧
    (workerMarked sampleState "p1" "t1" sampleActive).events =
      .status_change "p1" "t1" .worker_running :: sampleState.events ∧
    repoFind (workerMarked sampleState "p1" "t1" sampleActive) "p1" "t1" =
      some ({ sampleRecord with status := .worker_running }) :=
  (ralph_worker_before_reviewer
    ({ sampleEnv with workerResult := fun _ => .error "boom" })
    4 "p1" "t1" 1 sampleState sampleActive sampleRecord "/proj"
    (by decide) rfl (by decide) rfl).1 "boom" rfl

/-- C3: when the next iteration would begin at
`currentIteration ≥ maxTurns`, the loop completes with
`max_turns_reached` instead of running a worker phase; and
`currentIteration ≤ maxTurns` is an invariant of the iteration
machinery, so the iteration counter never exceeds `maxTurns`. -/
theorem ralph_max_turns_bound
    (env : LoopEnv) (fuel : Nat) (pid tid : String) (s : ServiceState) :
    (∀ a st, alGet s.activeLoops (getLoopKey pid tid) = some a →
      a.shouldContinue = true → repoFind s pid tid = some st →
      st.config.maxTurns ≤ st.currentIteration →
      runNextIteration env (fuel + 1) pid tid s =
        (completeLoop s pid tid .max_turns_reached, .ok)) ∧
    (invBound s → invBound (runNextIteration env fuel pid tid s).1) := by
  constructor
  · intro a st hA hSC hF hle
    rw [runNextIteration]
    simp only [hA, hSC, not_true, if_false, hF]
    rw [if_pos hle]
  · exact ((phasesPresInv env fuel).1 pid tid s).1

/-- Witness for C3 at a concrete state whose iteration counter has
reached `maxTurns`. -/
theorem ralph_max_turns_bound_witness :
    runNextIteration sampleEnv 4 "p1" "t1"
      ({ sampleState with repo := [(("p1", "t1"), { sampleRecord with currentIteration := 2 })] }) =
      (completeLoop ({ sampleState with repo := [(("p1", "t1"), { sampleRecord with currentIteration := 2 })] }) "p1" "t1" .max_turns_reached, .ok) ∧
    invBound (runNextIteration sampleEnv 9 "p1" "t1" sampleState).1 := by
  constructor
  · exact (ralph_max_turns_bound sampleEnv 3 "p1" "t1" _).1
      sampleActive ({ sampleRecord with currentIteration := 2 })
      (by decide) rfl (by decide) (by decide)
  · refine (ralph_max_turns_bound sampleEnv 9 "p1" "t1" sampleState).2 ?_
    intro p t st hf
    unfold repoFind sampleState alGet at hf
    split at hf
    · cases hf
      decide
    · cases hf

/-- C4: an error escaping the iteration chain is routed to
`handleLoopError`, which removes the active entry, persists
`failed` / `critical_failure` with the error message, emits
`loop_error`, and does nothing else (no phase is retried). -/
theorem ralph_error_no_retry
    (env : LoopEnv) (fuel : Nat) (pid tid msg : String)
    (s s1 : ServiceState)
    (h : runNextIteration env fuel pid tid s = (s1, .err msg)) :
    driveLoop env fuel pid tid s = handleLoopError s1 pid tid msg ∧
    alGet (handleLoopError s1 pid tid msg).activeLoops
      (getLoopKey pid tid) = none ∧
    (handleLoopError s1 pid tid msg).events =
      .loop_error pid tid msg :: s1.events ∧
    (∀ r, repoFind s1 pid tid = some r →
      repoFind (handleLoopError s1 pid tid msg) pid tid =
        some ({ r with status := .failed, finalStatus := some .critical_failure, error := some msg })) := by
  refine ⟨?_, handleLoopError_activeLoops_none s1 pid tid msg,
    events_handleLoopError s1 pid tid msg,
    fun r hr => repoFind_handleLoopError msg hr⟩
  unfold driveLoop
  rw [h]

/-- Witness for C4: a project whose path cannot be resolved makes the
worker phase throw, and the loop is marked failed. -/
theorem ralph_error_no_retry_witness :
    driveLoop ({ sampleEnv with projectPath := fun _ => none }) 4 "p1" "t1"
      sampleState =
      handleLoopError
        (runNextIteration ({ sampleEnv with projectPath := fun _ => none })
          4 "p1" "t1" sampleState).1 "p1" "t1"
        "Project path not found for: p1" := by
  refine (ralph_error_no_retry ({ sampleEnv with projectPath := fun _ => none })
    4 "p1" "t1" "Project path not found for: p1" sampleState _ ?_).1
  decide

/-- The sample state satisfies the map discipline (its only record is
`idle`). -/
theorem sample_noGhost : noGhost sampleState := by
  intro p t st hcf hf hterm
  unfold repoFind sampleState alGet at hf
  split at hf
  · cases hf
    exact absurd hterm nonterminal_idle
  · cases hf

/-- C5: the active-loops map discipline: `start` registers an entry
under the `projectId:taskId` key; `completeLoop` (reviewer approval or
rejection, max turns), `handleLoopError` and `stop` all remove the
entry while persisting a terminal status; and the invariant "a loop
persisted as `completed` or `failed` has no map entry" is preserved by
every entry point (key collisions excluded by colon-free project
ids). -/
theorem ralph_active_map_discipline
    (env : LoopEnv) (fuel : Nat) (pid tid msg : String)
    (cfg : RalphLoopConfig) (fs : RalphLoopFinalStatus)
    (s : ServiceState) :
    (startLoop env fuel pid cfg tid s =
      driveLoop env fuel pid tid (startState s pid cfg tid)) ∧
    (alGet (startState s pid cfg tid).activeLoops (getLoopKey pid tid) =
      some ({ taskId := tid, projectId := pid, shouldContinue := true, currentPhase := none })) ∧
    (alGet (completeLoop s pid tid fs).activeLoops (getLoopKey pid tid) = none) ∧
    (∀ r, repoFind s pid tid = some r →
      repoFind (completeLoop s pid tid fs) pid tid =
        some ({ r with status := .completed, finalStatus := some fs })) ∧
    (alGet (handleLoopError s pid tid msg).activeLoops (getLoopKey pid tid) = none) ∧
    (∀ r, repoFind s pid tid = some r →
      repoFind (handleLoopError s pid tid msg) pid tid =
        some ({ r with status := .failed, finalStatus := some .critical_failure, error := some msg })) ∧
    (alGet (stop s pid tid).activeLoops (getLoopKey pid tid) = none) ∧
    (colonFree pid → noGhost s →
      noGhost (startLoop env fuel pid cfg tid s) ∧
      noGhost (stop s pid tid) ∧
      noGhost (pause s pid tid) ∧
      noGhost (driveLoop env fuel pid tid s) ∧
      (∀ s', resume env fuel pid tid s = .ok s' → noGhost s')) := by
  refine ⟨rfl, ?_, completeLoop_activeLoops_none s pid tid fs,
    fun r hr => repoFind_completeLoop fs hr,
    handleLoopError_activeLoops_none s pid tid msg,
    fun r hr => repoFind_handleLoopError msg hr,
    stop_activeLoops_none s pid tid, ?_⟩
  · unfold startState
    exact alGet_alSet_self _ _ _
  · intro hcf hg
    exact ⟨(PresInv_startLoop env fuel pid cfg tid s hcf).2 hg,
      (PresInv_stop s pid tid).2 hg,
      (PresInv_pause s pid tid).2 hg,
      (PresInv_driveLoop env fuel pid tid s).2 hg,
      fun s' h => (PresInv_resume hcf h).2 hg⟩

/-- Witness for C5 at a concrete state. -/
theorem ralph_active_map_discipline_witness :
    alGet (startState sampleState "p2" sampleRecord.config "t2").activeLoops
      (getLoopKey "p2" "t2") =
      some ({ taskId := "t2", projectId := "p2", shouldContinue := true, currentPhase := none }) ∧
    alGet (stop sampleState "p1" "t1").activeLoops (getLoopKey "p1" "t1") = none ∧
    noGhost (stop sampleState "p1" "t1") := by
  have h := ralph_active_map_discipline sampleEnv 6 "p1" "t1" "m"
    sampleRecord.config .approved sampleState
  have h2 := ralph_active_map_discipline sampleEnv 6 "p2" "t2" "m"
    sampleRecord.config .approved sampleState
  exact ⟨h2.2.1, h.2.2.2.2.2.2.1,
    ((h.2.2.2.2.2.2.2 (by decide) sample_noGhost).2).1⟩

/-- C6: `stop` unconditionally persists `completed` /
`critical_failure` / "Loop stopped by user", also when no active map
entry exists for the key, so stopping an already-approved loop
overwrites its final status. -/
theorem ralph_stop_unconditional (s : ServiceState) (pid tid : String) :
    (∀ r, repoFind s pid tid = some r →
      repoFind (stop s pid tid) pid tid =
        some ({ r with status := .completed, finalStatus := some .critical_failure, error := some "Loop stopped by user" })) ∧
    (alGet s.activeLoops (getLoopKey pid tid) = none →
      ∀ r, repoFind s pid tid = some r →
        repoFind (stop s pid tid) pid tid =
          some ({ r with status := .completed, finalStatus := some .critical_failure, error := some "Loop stopped by user" })) ∧
    (∀ r, repoFind s pid tid = some r → r.finalStatus = some .approved →
      ∃ r', repoFind (stop s pid tid) pid tid = some r' ∧
        r'.finalStatus = some .critical_failure ∧
        r'.status = .completed ∧
        r'.error = some "Loop stopped by user") := by
  have hmain : ∀ r, repoFind s pid tid = some r →
      repoFind (stop s pid tid) pid tid =
        some ({ r with status := .completed, finalStatus := some .critical_failure, error := some "Loop stopped by user" }) := by
    intro r hr
    unfold stop
    rcases h : alGet s.activeLoops (getLoopKey pid tid) with _ | a <;>
      simp only [h]
    · rw [repoFind_repoUpdate_self _ hr]
      simp [applyUpdate]
    · have hr1 : repoFind ({ s with activeLoops := alDelete (alSet s.activeLoops (getLoopKey pid tid) ({ a with shouldContinue := false })) (getLoopKey pid tid) }) pid tid = some r := hr
      rw [repoFind_repoUpdate_self _ hr1]
      simp [applyUpdate]
  exact ⟨hmain, fun _ => hmain,
    fun r hr _ => ⟨_, hmain r hr, rfl, rfl, rfl⟩⟩

/-- Witness for C6: stopping a finished, approved loop with no active
entry overwrites its final status with `critical_failure`. -/
theorem ralph_stop_unconditional_witness :
    alGet ({ sampleState with activeLoops := [], repo := [(("p1", "t1"), { sampleRecord with status := .completed, finalStatus := some .approved })] } : ServiceState).activeLoops (getLoopKey "p1" "t1") = none ∧
    repoFind (stop ({ sampleState with activeLoops := [], repo := [(("p1", "t1"), { sampleRecord with status := .completed, finalStatus := some .approved })] }) "p1" "t1") "p1" "t1" =
      some ({ sampleRecord with status := .completed, finalStatus := some .critical_failure, error := some "Loop stopped by user" }) := by
  refine ⟨by decide, ?_⟩
  exact (ralph_stop_unconditional ({ sampleState with activeLoops := [], repo := [(("p1", "t1"), { sampleRecord with status := .completed, finalStatus := some .approved })] }) "p1" "t1").1
    ({ sampleRecord with status := .completed, finalStatus := some .approved }) (by decide)

/-- C7: `resume` errors exactly when there is no persisted record or
its status is not `paused`; on a paused loop it re-registers the active
entry with `shouldContinue`, persists status `idle`, and runs the next
iteration chain. -/
theorem ralph_resume_exactly_paused
    (env : LoopEnv) (fuel : Nat) (pid tid : String) (s : ServiceState) :
    (repoFind s pid tid = none →
      resume env fuel pid tid s = .error ("Ralph Loop not found: " ++ tid)) ∧
    (∀ st, repoFind s pid tid = some st → st.status ≠ .paused →
      resume env fuel pid tid s =
        .error ("Cannot resume loop in status: " ++ st.status.str)) ∧
    (∀ st, repoFind s pid tid = some st → st.status = .paused →
      resume env fuel pid tid s =
        .ok (driveLoop env fuel pid tid (resumeState s pid tid)) ∧
      alGet (resumeState s pid tid).activeLoops (getLoopKey pid tid) =
        some ({ taskId := tid, projectId := pid, shouldContinue := true, currentPhase := none }) ∧
      repoFind (resumeState s pid tid) pid tid =
        some ({ st with status := .idle })) ∧
    ((∃ s', resume env fuel pid tid s = .ok s') ↔
      ∃ st, repoFind s pid tid = some st ∧ st.status = .paused) := by
  have h1 : repoFind s pid tid = none →
      resume env fuel pid tid s = .error ("Ralph Loop not found: " ++ tid) := by
    intro h
    unfold resume
    simp only [h]
  have h2 : ∀ st, repoFind s pid tid = some st → st.status ≠ .paused →
      resume env fuel pid tid s =
        .error ("Cannot resume loop in status: " ++ st.status.str) := by
    intro st h hne
    unfold resume
    simp only [h]
    rw [if_neg hne]
  have h3 : ∀ st, repoFind s pid tid = some st → st.status = .paused →
      resume env fuel pid tid s =
        .ok (driveLoop env fuel pid tid (resumeState s pid tid)) ∧
      alGet (resumeState s pid tid).activeLoops (getLoopKey pid tid) =
        some ({ taskId := tid, projectId := pid, shouldContinue := true, currentPhase := none }) ∧
      repoFind (resumeState s pid tid) pid tid =
        some ({ st with status := .idle }) := by
    intro st h hp
    refine ⟨?_, ?_, ?_⟩
    · unfold resume
      simp only [h]
      rw [if_pos hp]
      rfl
    · unfold resumeState updateStatus
      rw [activeLoops_emitEvent, activeLoops_repoUpdate]
      exact alGet_alSet_self _ _ _
    · unfold resumeState updateStatus
      rw [repoFind_emitEvent]
      have h' : repoFind ({ s with activeLoops := alSet s.activeLoops (getLoopKey pid tid) ({ taskId := tid, projectId := pid, shouldContinue := true, currentPhase := none }) }) pid tid = some st := h
      rw [repoFind_repoUpdate_self _ h']
      simp [applyUpdate]
  refine ⟨h1, h2, h3, ?_⟩
  constructor
  · rintro ⟨s', hs⟩
    rcases hf : repoFind s pid tid with _ | st
    · rw [h1 hf] at hs
      exact Except.noConfusion hs
    · by_cases hp : st.status = .paused
      · exact ⟨st, hf ▸ rfl, hp⟩
      · rw [h2 st hf hp] at hs
        exact Except.noConfusion hs
  · rintro ⟨st, hf, hp⟩
    exact ⟨_, (h3 st hf hp).1⟩

/-- Witness for C7: resuming a concrete paused loop succeeds and
rebuilds the active entry. -/
theorem ralph_resume_exactly_paused_witness :
    resume sampleEnv 7 "p1" "t1" ({ sampleState with repo := [(("p1", "t1"), { sampleRecord with status := .paused })] }) =
      .ok (driveLoop sampleEnv 7 "p1" "t1" (resumeState ({ sampleState with repo := [(("p1", "t1"), { sampleRecord with status := .paused })] }) "p1" "t1")) := by
  exact ((ralph_resume_exactly_paused sampleEnv 7 "p1" "t1"
    ({ sampleState with repo := [(("p1", "t1"), { sampleRecord with status := .paused })] })).2.2.1
    ({ sampleRecord with status := .paused }) (by decide) rfl).1

theorem except_bind_ok {ε α β : Type} (a : α) (f : α → Except ε β) :
    ((Except.ok a : Except ε α) >>= f) = f a := rfl

theorem except_bind_error {ε α β : Type} (e : ε) (f : α → Except ε β) :
    ((Except.error e : Except ε α) >>= f) = Except.error e := rfl

/-- C8: PUT `/settings` throws a `ValidationError` whenever the request
supplies a `maxConcurrentAgents` that is not a number or is below 1,
and then the repository update is never reached and the stored
settings are unchanged; when every supplied field validates, the
repository is updated and the updated settings returned. -/
theorem settings_put_validation (b : UpdateSettingsBody) (cur : Settings) :
    (∀ v, b.maxConcurrentAgents = some v →
      (∀ x, v = JsVal.num x → x < 1) →
      putSettings b cur = .error "maxConcurrentAgents must be a positive number" ∧
      storedAfterPut b cur = cur) ∧
    (∀ updated, putSettings b cur = .ok updated →
      updated = applySettingsUpdate cur b ∧
      storedAfterPut b cur = updated) ∧
    (checkMaxConcurrentAgents b.maxConcurrentAgents = .ok () →
      (∀ p, b.claudePermissions = some p →
        validatePermissionRules p.allowRules "allowRules" = .ok () ∧
        validatePermissionRules p.denyRules "denyRules" = .ok () ∧
        validatePermissionRules p.askRules "askRules" = .ok ()) →
      (∀ t, b.promptTemplates = some t →
        validatePromptTemplates t = .ok ()) →
      putSettings b cur = .ok (applySettingsUpdate cur b)) := by
  refine ⟨?_, ?_, ?_⟩
  · intro v hv hbad
    have hchk : checkMaxConcurrentAgents b.maxConcurrentAgents =
        .error "maxConcurrentAgents must be a positive number" := by
      rw [hv]
      cases v with
      | num x =>
        have hx := hbad x rfl
        simp [checkMaxConcurrentAgents, hx]
      | str s => rfl
      | bool b => rfl
      | null => rfl
      | arr xs => rfl
      | obj fs => rfl
    have hput : putSettings b cur =
        .error "maxConcurrentAgents must be a positive number" := by
      unfold putSettings
      rw [hchk, except_bind_error]
    refine ⟨hput, ?_⟩
    unfold storedAfterPut
    rw [hput]
  · intro updated h
    have h0 := h
    unfold putSettings at h
    cases e1 : checkMaxConcurrentAgents b.maxConcurrentAgents with
    | error msg =>
      rw [e1, except_bind_error] at h
      exact Except.noConfusion h
    | ok u =>
      rw [e1, except_bind_ok] at h
      cases e2 : (match b.claudePermissions with
            | none => Except.ok ()
            | some p => do
                validatePermissionRules p.allowRules "allowRules"
                validatePermissionRules p.denyRules "denyRules"
                validatePermissionRules p.askRules "askRules" :
          Except String Unit) with
      | error msg =>
        rw [e2, except_bind_error] at h
        exact Except.noConfusion h
      | ok u2 =>
        rw [e2, except_bind_ok] at h
        cases e3 : (match b.promptTemplates with
              | none => Except.ok ()
              | some t => validatePromptTemplates t : Except String Unit) with
        | error msg =>
          rw [e3, except_bind_error] at h
          exact Except.noConfusion h
        | ok u3 =>
          rw [e3, except_bind_ok] at h
          injection h with h
          refine ⟨h.symm, ?_⟩
          unfold storedAfterPut
          rw [h0]
  · intro hmax hperm htempl
    unfold putSettings
    rw [hmax, except_bind_ok]
    have h2 : (match b.claudePermissions with
          | none => Except.ok ()
          | some p => do
              validatePermissionRules p.allowRules "allowRules"
              validatePermissionRules p.denyRules "denyRules"
              validatePermissionRules p.askRules "askRules" :
        Except String Unit) = Except.ok () := by
      cases hcp : b.claudePermissions with
      | none => rfl
      | some p =>
        obtain ⟨ha, hd, hk⟩ := hperm p hcp
        show (do
            validatePermissionRules p.allowRules "allowRules"
            validatePermissionRules p.denyRules "denyRules"
            validatePermissionRules p.askRules "askRules" :
          Except String Unit) = Except.ok ()
        rw [show (do
            validatePermissionRules p.allowRules "allowRules"
            validatePermissionRules p.denyRules "denyRules"
            validatePermissionRules p.askRules "askRules" :
          Except String Unit) =
          (validatePermissionRules p.allowRules "allowRules" >>= fun _ =>
            validatePermissionRules p.denyRules "denyRules" >>= fun _ =>
            validatePermissionRules p.askRules "askRules") from rfl]
        rw [ha, except_bind_ok, hd, except_bind_ok, hk]
    rw [h2, except_bind_ok]
    have h3 : (match b.promptTemplates with
          | none => Except.ok ()
          | some t => validatePromptTemplates t : Except String Unit) =
        Except.ok () := by
      cases hpt : b.promptTemplates with
      | none => rfl
      | some t => exact htempl t hpt
    rw [h3, except_bind_ok]
    rfl

/-- Witness for C8: a request with `maxConcurrentAgents = 0` is
rejected and leaves the stored settings unchanged. -/
theorem settings_put_validation_witness :
    putSettings ({ maxConcurrentAgents := some (.num 0) }) sampleSettings =
      .error "maxConcurrentAgents must be a positive number" ∧
    storedAfterPut ({ maxConcurrentAgents := some (.num 0) }) sampleSettings =
      sampleSettings := by
  exact (settings_put_validation ({ maxConcurrentAgents := some (.num 0) })
    sampleSettings).1 (.num 0) rfl
    (fun x hx => by injection hx with h; rw [← h]; norm_num)

theorem getElem1_some_not_short {α : Type} {l : List α} {x : α}
    (h : l[1]? = some x) : ¬ l.length < 2 := by
  intro hlt
  rw [List.getElem?_eq_none (by omega)] at h
  exact Option.noConfusion h

theorem isEmpty_false_of_ne_nil {α : Type} {l : List α} (h : l ≠ []) :
    l.isEmpty = false := by
  cases l with
  | nil => exact absurd rfl h
  | cons c cs => rfl

theorem ne_nil_of_isEmpty_false {α : Type} {l : List α}
    (h : l.isEmpty = false) : l ≠ [] := by
  cases l with
  | nil => exact Bool.noConfusion h
  | cons c cs => exact fun hn => List.noConfusion hn

/-- C9 counterexample: on this input the parser returns summary `"a"`
(the segment between the first and second `SUMMARY:` markers), not the
trimmed text after the first `SUMMARY:` marker in the whole input,
which is `"a\nSUMMARY:b"`; so the claim's description of the summary is
false here. -/
theorem parse_optimization_counterexample :
    parseOptimizationOutput "OPTIMIZED_CONTENT:\n```\nx\n```\nSUMMARY:a\nSUMMARY:b" =
      some ({ optimizedContent := "x", summary := "a" }) ∧
    jsTrim "a\nSUMMARY:b" = "a\nSUMMARY:b" ∧
    ("a" : String) ≠ "a\nSUMMARY:b" := by
  refine ⟨by decide, by decide, by decide⟩

/-- C9 (amended): `parseOptimizationOutput` succeeds exactly when both
markers occur, the code-block regex matches in the segment between the
first `OPTIMIZED_CONTENT:` marker and its next occurrence (or the end)
with a non-empty body, and the segment between the first `SUMMARY:`
marker and its next occurrence (or the end) is non-empty; the result is
then the trimmed block body and that trimmed summary segment. -/
theorem parse_optimization_amended (content : String) :
    ((parseOptimizationOutput content).isSome = true ↔
      (jsIncludes content "OPTIMIZED_CONTENT:" = true ∧
       jsIncludes content "SUMMARY:" = true ∧
       ∃ seg cap sum, (jsSplit content "OPTIMIZED_CONTENT:")[1]? = some seg ∧
         findCodeBlock seg.data = some cap ∧ cap ≠ [] ∧
         (jsSplit content "SUMMARY:")[1]? = some sum ∧ sum ≠ "")) ∧
    (∀ r, parseOptimizationOutput content = some r →
      ∃ seg cap sum, (jsSplit content "OPTIMIZED_CONTENT:")[1]? = some seg ∧
        findCodeBlock seg.data = some cap ∧
        (jsSplit content "SUMMARY:")[1]? = some sum ∧
        r.optimizedContent = jsTrim (String.mk cap) ∧
        r.summary = jsTrim sum) := by
  by_cases hC : (jsIncludes content "OPTIMIZED_CONTENT:" = true ∧
      jsIncludes content "SUMMARY:" = true)
  · rcases hseg : (jsSplit content "OPTIMIZED_CONTENT:")[1]? with _ | seg
    · exfalso
      have hinc : (2 : Nat) ≤ (jsSplit content "OPTIMIZED_CONTENT:").length :=
        of_decide_eq_true hC.1
      have h1 : 1 < (jsSplit content "OPTIMIZED_CONTENT:").length := by omega
      rw [List.getElem?_eq_getElem h1] at hseg
      exact Option.noConfusion hseg
    · rcases hcb : findCodeBlock seg.data with _ | cap
      · have hP : parseOptimizationOutput content = none := by
          unfold parseOptimizationOutput
          rw [if_neg (not_not_intro hC)]
          try dsimp only
          rw [if_neg (getElem1_some_not_short hseg), hseg]
          try dsimp only
          rw [hcb]
        constructor
        · rw [hP]
          constructor
          · intro hs
            exact Bool.noConfusion hs
          · rintro ⟨-, -, seg', cap', -, hseg', hcb', -, -⟩
            cases hseg'
            rw [hcb] at hcb'
            exact Option.noConfusion hcb'
        · intro r hr
          rw [hP] at hr
          exact Option.noConfusion hr
      · by_cases hcape : cap = []
        · have hP : parseOptimizationOutput content = none := by
            unfold parseOptimizationOutput
            rw [if_neg (not_not_intro hC)]
            try dsimp only
            rw [if_neg (getElem1_some_not_short hseg), hseg]
            try dsimp only
            rw [hcb]
            try dsimp only
            rw [hcape]
            rfl
          constructor
          · rw [hP]
            constructor
            · intro hs
              exact Bool.noConfusion hs
            · rintro ⟨-, -, seg', cap', -, hseg', hcb', hne', -, -⟩
              cases hseg'
              rw [hcb] at hcb'
              cases hcb'
              exact absurd hcape hne'
          · intro r hr
            rw [hP] at hr
            exact Option.noConfusion hr
        · rcases hsum : (jsSplit content "SUMMARY:")[1]? with _ | sum
          · exfalso
            have hinc : (2 : Nat) ≤ (jsSplit content "SUMMARY:").length :=
              of_decide_eq_true hC.2
            have h1 : 1 < (jsSplit content "SUMMARY:").length := by omega
            rw [List.getElem?_eq_getElem h1] at hsum
            exact Option.noConfusion hsum
          · by_cases hse : sum = ""
            · have hP : parseOptimizationOutput content = none := by
                unfold parseOptimizationOutput
                rw [if_neg (not_not_intro hC)]
                try dsimp only
                rw [if_neg (getElem1_some_not_short hseg), hseg]
                try dsimp only
                rw [hcb]
                try dsimp only
                rw [if_neg (by rw [isEmpty_false_of_ne_nil hcape]; exact Bool.noConfusion)]
                try dsimp only
                rw [if_neg (getElem1_some_not_short hsum), hsum]
                try dsimp only
                rw [if_pos hse]
              constructor
              · rw [hP]
                constructor
                · intro hs
                  exact Bool.noConfusion hs
                · rintro ⟨-, -, seg', cap', sum', hseg', -, -, hsum', hne'⟩
                  cases hsum'
                  exact absurd hse hne'
              · intro r hr
                rw [hP] at hr
                exact Option.noConfusion hr
            · have hP : parseOptimizationOutput content =
                  some ({ optimizedContent := jsTrim (String.mk cap), summary := jsTrim sum }) := by
                unfold parseOptimizationOutput
                rw [if_neg (not_not_intro hC)]
                try dsimp only
                rw [if_neg (getElem1_some_not_short hseg), hseg]
                try dsimp only
                rw [hcb]
                try dsimp only
                rw [if_neg (by rw [isEmpty_false_of_ne_nil hcape]; exact Bool.noConfusion)]
                try dsimp only
                rw [if_neg (getElem1_some_not_short hsum), hsum]
                try dsimp only
                rw [if_neg hse]
              constructor
              · rw [hP]
                constructor
                · intro _
                  refine ⟨hC.1, hC.2, seg, cap, sum, ?_, hcb, hcape, ?_, hse⟩
                  · first
                    | exact hseg
                    | rfl
                  · first
                    | exact hsum
                    | rfl
                · intro _
                  rfl
              · intro r hr
                rw [hP] at hr
                cases hr
                refine ⟨seg, cap, sum, ?_, hcb, ?_, rfl, rfl⟩
                · first
                  | exact hseg
                  | rfl
                · first
                  | exact hsum
                  | rfl
  · have hP : parseOptimizationOutput content = none := by
      unfold parseOptimizationOutput
      rw [if_pos]
      intro hand
      exact hC ⟨hand.1, hand.2⟩
    constructor
    · rw [hP]
      constructor
      · intro hs
        exact Bool.noConfusion hs
      · rintro ⟨h1, h2, -⟩
        exact absurd ⟨h1, h2⟩ hC
    · intro r hr
      rw [hP] at hr
      exact Option.noConfusion hr

/-- Witness for the amended C9 at a concrete successful parse. -/
theorem parse_optimization_amended_witness :
    (parseOptimizationOutput "OPTIMIZED_CONTENT:\n```markdown\nhello\n```\nSUMMARY: trimmed me ").isSome = true ∧
    parseOptimizationOutput "OPTIMIZED_CONTENT:\n```markdown\nhello\n```\nSUMMARY: trimmed me " =
      some ({ optimizedContent := "hello", summary := "trimmed me" }) := by
  constructor
  · exact (parse_optimization_amended
      "OPTIMIZED_CONTENT:\n```markdown\nhello\n```\nSUMMARY: trimmed me ").1.mpr
      ⟨by decide, by decide, "\n```markdown\nhello\n```\nSUMMARY: trimmed me ",
        ("hello\n").data, " trimmed me ", by decide, by decide, by decide,
        by decide, by decide⟩
  · decide

/-! Helper lemmas for C10. -/

theorem str_append_eq_empty_iff (a b : String) :
    a ++ b = "" ↔ a = "" ∧ b = "" := by
  constructor
  · intro h
    have hd : (a ++ b).data = ([] : List Char) := by rw [h]
    rw [String.data_append] at hd
    obtain ⟨ha, hb⟩ := List.append_eq_nil.mp hd
    exact ⟨String.ext ha, String.ext hb⟩
  · rintro ⟨rfl, rfl⟩
    rfl

theorem prefix_append_ne_empty (a b : String) (ha : a ≠ "") :
    a ++ b ≠ "" := fun h => ha ((str_append_eq_empty_iff a b).mp h).1

theorem diffLine_eq_empty_iff (o p : String) :
    diffLine o p = "" ↔ o = p := by
  by_cases h : o = p
  · subst h
    unfold diffLine
    rw [if_neg (not_not_intro rfl)]
    exact ⟨fun _ => rfl, fun _ => rfl⟩
  · unfold diffLine
    rw [if_pos h]
    constructor
    · intro he
      exfalso
      have hdash : ("- " : String) ≠ "" := by decide
      have hplus : ("+ " : String) ≠ "" := by decide
      by_cases h1 : o ≠ "" ∧ p = ""
      · rw [if_pos h1] at he
        exact prefix_append_ne_empty _ _ (prefix_append_ne_empty _ _ hdash) he
      · rw [if_neg h1] at he
        by_cases h2 : o = "" ∧ p ≠ ""
        · rw [if_pos h2] at he
          exact prefix_append_ne_empty _ _ (prefix_append_ne_empty _ _ hplus) he
        · rw [if_neg h2] at he
          exact prefix_append_ne_empty _ _
            (prefix_append_ne_empty _ _
              (prefix_append_ne_empty _ _
                (prefix_append_ne_empty _ _ hdash))) he
    · intro he
      exact absurd he h

theorem foldl_append_empty_iff (f : Nat → String) (l : List Nat) :
    ∀ acc, (l.foldl (fun a i => a ++ f i) acc = "" ↔
      acc = "" ∧ ∀ i ∈ l, f i = "") := by
  induction l with
  | nil =>
    intro acc
    simp
  | cons x xs ih =>
    intro acc
    simp only [List.foldl_cons]
    rw [ih (acc ++ f x), str_append_eq_empty_iff]
    constructor
    · rintro ⟨⟨ha, hx⟩, hall⟩
      refine ⟨ha, ?_⟩
      intro i hi
      rcases List.mem_cons.mp hi with hh | hh
      · rw [hh]
        exact hx
      · exact hall i hh
    · rintro ⟨ha, hall⟩
      exact ⟨⟨ha, hall x (List.mem_cons_self x xs)⟩,
        fun i hi => hall i (List.mem_cons_of_mem x hi)⟩

/-- C10: `generateDiff s s` is empty, and `generateDiff a b` is empty
exactly when the two texts agree line by line positionally, padding
with the empty string past the end of the shorter text. -/
theorem generate_diff_empty_iff (a b : String) :
    generateDiff a a = "" ∧
    (generateDiff a b = "" ↔
      ∀ i : Nat, (jsSplit a "\n").getD i "" = (jsSplit b "\n").getD i "") := by
  have hmain : ∀ x y : String, (generateDiff x y = "" ↔
      ∀ i : Nat, (jsSplit x "\n").getD i "" = (jsSplit y "\n").getD i "") := by
    intro x y
    unfold generateDiff
    rw [foldl_append_empty_iff]
    constructor
    · rintro ⟨-, hall⟩ i
      by_cases hi : i < max (jsSplit x "\n").length (jsSplit y "\n").length
      · exact (diffLine_eq_empty_iff _ _).mp (hall i (List.mem_range.mpr hi))
      · have hx : (jsSplit x "\n").length ≤ i := by
          simp only [not_lt, max_le_iff] at hi
          exact hi.1
        have hy : (jsSplit y "\n").length ≤ i := by
          simp only [not_lt, max_le_iff] at hi
          exact hi.2
        rw [List.getD_eq_default _ _ hx, List.getD_eq_default _ _ hy]
    · intro hall
      refine ⟨rfl, ?_⟩
      intro i hi
      exact (diffLine_eq_empty_iff _ _).mpr (hall i)
  exact ⟨(hmain a a).mpr (fun i => rfl), hmain a b⟩

/-- Witness for C10 at concrete strings. -/
theorem generate_diff_empty_iff_witness :
    generateDiff "line1\nline2" "line1\nline2" = "" ∧
    generateDiff "x" "x" = "" :=
  ⟨(generate_diff_empty_iff "line1\nline2" "line1\nline2").2.mpr (fun _ => rfl),
    (generate_diff_empty_iff "x" "zzz").1⟩

end Claudito
